import Mathlib

/-!
Verification of the G2P (grapheme-to-phoneme) rule engine of this repository:
the classes `EnglishG2p`, `IPAG2P` and `ChineseG2p` of
`nemo_text_processing/g2p/modules.py`, shallowly embedded in Lean.

Modelling conventions:
* a Python `str` is a `List Char` (type `W` below); a phoneme symbol is also a
  `W`; a pronunciation is a `List W`; Python `list`-of-`str` values are `List W`;
* a Python `dict` is an association list with first-match lookup; a dict
  assignment `d[k] = v` is modelled by prepending `(k, v)`, which yields the
  same lookup behaviour (the most recent assignment wins);
* the `random.Random` generator of a G2P object is made explicit as a stream
  `rng : Nat → ℚ` of draws together with the index of the next draw; a call of
  `self._rng.random()` reads `rng i` and advances the index.  Python floats are
  modelled as rationals;
* exceptions (`ValueError`, `AssertionError`) are modelled with `Except`.
-/

/-- Characters of a Python string. -/
abbrev W := List Char

/-- The apostrophe character (written via its code point to keep sources plain). -/
def apos : Char := Char.ofNat 39

/-- Python slicing `w[:-n]` (for `n ≥ 1`): the word without its last `n` characters. -/
def pyDropLast (n : Nat) (w : W) : W := w.take (w.length - n)

/-- First-match lookup in an association list, the model of a Python dict read. -/
def dictLookup {α : Type} : List (W × α) → W → Option α
  | [], _ => none
  | (k2, v) :: rest, k => if k2 = k then some v else dictLookup rest k

/-- Result of `parse_one_word`: the Python code returns either a `str`
(the word itself, or the result of `apply_to_oov_word`) or a `list` of symbol
strings.  The two are distinguished because `prons.extend` iterates a `str`
character by character. -/
inductive Parsed where
  | pstr : W → Parsed
  | plist : List W → Parsed
deriving DecidableEq

/-- Effect of `prons.extend(...)` on a parse result: a `str` contributes its
characters one by one, a `list` contributes its elements. -/
def Parsed.toSymbols : Parsed → List W
  | .pstr s => s.map (fun c => [c])
  | .plist l => l

/-- The character class of `EnglishG2p`'s regex `[a-zA-ZÀ-ÿ\d]`
(modules.py line 227). -/
def isEnLetterOrDigit (c : Char) : Bool :=
  (decide ('a' ≤ c ∧ c ≤ 'z')) || (decide ('A' ≤ c ∧ c ≤ 'Z')) ||
  (decide ('À' ≤ c ∧ c ≤ 'ÿ')) || c.isDigit

/-- The guard `self.phoneme_probability is not None and self._rng.random() > self.phoneme_probability`,
with `rand` the value the generator would return. -/
def probSkip : Option ℚ → ℚ → Bool
  | some p, rand => decide (p < rand)
  | none, _ => false

/-- The guard `self.heteronyms is not None and word in self.heteronyms`
(for `IPAG2P` the guard `self.heteronyms and word in self.heteronyms` agrees
with this one, since membership in an empty set is false). -/
def hetHit : Option (List W) → W → Bool
  | some hs, w => decide (w ∈ hs)
  | none, _ => false

/-- The separator token `"-"` emitted between hyphen-split sub-words. -/
def hyphenSym : W := ['-']

/-- Python `str.split(sep)` for a one-character separator, as used by
`word.split("-")` in both `__call__` implementations. -/
def pySplit (sep : Char) : W → List W
  | [] => [[]]
  | c :: rest =>
      let r := pySplit sep rest
      if c = sep then [] :: r else (c :: r.headD []) :: r.tail

/-- State of a constructed `EnglishG2p` object (modules.py lines 93-150).
The dictionary holds, for each word, its list of pronunciations. -/
structure EnglishG2p where
  phoneme_dict : List (W × List (List W))
  apply_to_oov_word : Option (W → W)
  ignore_ambiguous_words : Bool
  heteronyms : Option (List W)
  phoneme_probability : Option ℚ

/-- Method `EnglishG2p.is_unique_in_phoneme_dict` (modules.py lines 214-215):
`len(self.phoneme_dict[word]) == 1`.  A missing key yields `false`, matching
the behaviour at every call site (the key is always present there). -/
def EnglishG2p.is_unique_in_phoneme_dict (g : EnglishG2p) (w : W) : Bool :=
  match dictLookup g.phoneme_dict w with
  | some ps => decide (ps.length = 1)
  | none => false

/-- The recurring guard `not self.ignore_ambiguous_words or self.is_unique_in_phoneme_dict(w)`. -/
def EnglishG2p.ambigOk (g : EnglishG2p) (w : W) : Bool :=
  !g.ignore_ambiguous_words || g.is_unique_in_phoneme_dict w

/-- The expression `self.phoneme_dict[w][0]`: first pronunciation of `w`. -/
def firstPron (d : List (W × List (List W))) (w : W) : List W :=
  ((dictLookup d w).getD []).headD []

/-- Method `EnglishG2p.parse_one_word` (modules.py lines 217-261), with the
random draw the generator would produce passed in as `rand`. -/
def EnglishG2p.parse_one_word (g : EnglishG2p) (rand : ℚ) (word : W) : Parsed × Bool :=
  if probSkip g.phoneme_probability rand = true then (.pstr word, true)
  else if word.any isEnLetterOrDigit = false then (.plist (word.map (fun c => [c])), true)
  else if hetHit g.heteronyms word = true then (.pstr word, true)
  else if word.length > 2 ∧ [apos, 's'] <:+ word ∧ dictLookup g.phoneme_dict word = none
      ∧ (dictLookup g.phoneme_dict (pyDropLast 2 word)).isSome = true
      ∧ g.ambigOk (pyDropLast 2 word) = true then
    (.plist (firstPron g.phoneme_dict (pyDropLast 2 word) ++ [['Z']]), true)
  else if word.length > 1 ∧ ['s'] <:+ word ∧ dictLookup g.phoneme_dict word = none
      ∧ (dictLookup g.phoneme_dict (pyDropLast 1 word)).isSome = true
      ∧ g.ambigOk (pyDropLast 1 word) = true then
    (.plist (firstPron g.phoneme_dict (pyDropLast 1 word) ++ [['Z']]), true)
  else if (dictLookup g.phoneme_dict word).isSome = true ∧ g.ambigOk word = true then
    (.plist (firstPron g.phoneme_dict word), true)
  else
    match g.apply_to_oov_word with
    | some f => (.pstr (f word), true)
    | none => (.pstr word, false)

/-- Number of random draws one `parse_one_word` call consumes. -/
def EnglishG2p.draws (g : EnglishG2p) : Nat :=
  if g.phoneme_probability.isSome then 1 else 0

/-- The hyphen-fallback loop of `EnglishG2p.__call__` (modules.py lines
277-281): parse each sub-word, append its symbols and a `"-"` token. -/
def EnglishG2p.hyphenLoop (g : EnglishG2p) (rng : Nat → ℚ) : List W → Nat → List W × Nat
  | [], i => ([], i)
  | sub :: rest, i =>
      let p := (g.parse_one_word (rng i) sub).1
      let t := g.hyphenLoop rng rest (i + g.draws)
      (p.toSymbols ++ [hyphenSym] ++ t.1, t.2)

/-- Processing of a single tokenizer item inside `EnglishG2p.__call__`
(modules.py lines 267-284), returning the emitted symbols and the advanced
draw index.  `pron.pop()` after the loop is `List.dropLast`. -/
def EnglishG2p.processToken (g : EnglishG2p) (rng : Nat → ℚ) (i : Nat)
    (tok : List W × Bool) : List W × Nat :=
  if tok.2 then (tok.1, i)
  else
    let word := tok.1.headD []
    let parts := pySplit '-' word
    let pr := g.parse_one_word (rng i) word
    let i1 := i + g.draws
    if pr.2 = false ∧ parts.length > 1 then
      let t := g.hyphenLoop rng parts i1
      (t.1.dropLast, t.2)
    else (pr.1.toSymbols, i1)

/-- The loop of `EnglishG2p.__call__` over the tokenized input, from draw
index `i`. -/
def EnglishG2p.callFrom (g : EnglishG2p) (rng : Nat → ℚ) : List (List W × Bool) → Nat → List W
  | [], _ => []
  | tok :: rest, i =>
      let t := g.processToken rng i tok
      t.1 ++ g.callFrom rng rest t.2

/-- Method `EnglishG2p.__call__` (modules.py lines 263-286) on tokenized input
(the tokenizer `english_word_tokenize` is a pure function of the text; its
output, a list of `(word representation, leave unchanged)` pairs, is taken as
the argument). -/
def EnglishG2p.call (g : EnglishG2p) (rng : Nat → ℚ) (tokens : List (List W × Bool)) : List W :=
  g.callFrom rng tokens 0

example :
    (EnglishG2p.parse_one_word
      { phoneme_dict := [(['c', 'a', 't'], [[['K'], ['A', 'E'], ['T']]])],
        apply_to_oov_word := none, ignore_ambiguous_words := true,
        heteronyms := none, phoneme_probability := none } 0 ['c', 'a', 't']) =
    (.plist [['K'], ['A', 'E'], ['T']], true) := by decide

example :
    (EnglishG2p.parse_one_word
      { phoneme_dict := [(['c', 'a', 't'], [[['K'], ['A', 'E'], ['T']]])],
        apply_to_oov_word := none, ignore_ambiguous_words := true,
        heteronyms := none, phoneme_probability := none } 0 ['c', 'a', 't', 's']) =
    (.plist [['K'], ['A', 'E'], ['T'], ['Z']], true) := by decide

example :
    (EnglishG2p.parse_one_word
      { phoneme_dict := [(['c', 'a', 't'], [[['K'], ['A', 'E'], ['T']]])],
        apply_to_oov_word := none, ignore_ambiguous_words := true,
        heteronyms := none, phoneme_probability := none } 0
      ['c', 'a', 't', apos, 's']) =
    (.plist [['K'], ['A', 'E'], ['T'], ['Z']], true) := by decide

example :
    (EnglishG2p.call
      { phoneme_dict := [(['c', 'a', 't'], [[['K'], ['A', 'E'], ['T']]])],
        apply_to_oov_word := none, ignore_ambiguous_words := true,
        heteronyms := none, phoneme_probability := none } (fun _ => 0)
      [([['c', 'a', 't', '-', 'c', 'a', 't']], false)]) =
    [['K'], ['A', 'E'], ['T'], ['-'], ['K'], ['A', 'E'], ['T']] := by decide

/-- Grapheme-case option of `IPAG2P`: the constants `GRAPHEME_CASE_UPPER`,
`GRAPHEME_CASE_LOWER` and `GRAPHEME_CASE_MIXED` of
`nemo_text_processing/g2p/data/data_utils.py` (not under `src/`). -/
inductive GraphemeCase where
  | upper | lower | mixed
deriving DecidableEq

/-- Python `str.upper()` (on the ASCII range; the claims under study do not
depend on non-ASCII case folding). -/
def upperW (w : W) : W := w.map Char.toUpper

/-- Python `str.lower()` (on the ASCII range). -/
def lowerW (w : W) : W := w.map Char.toLower

/-- Modelled from the spec: the helper `set_grapheme_case` of
`nemo_text_processing/g2p/data/data_utils.py` is not under `src/`; per the
`IPAG2P` docstring it converts all graphemes to uppercase, lowercase, or keeps
them as original mixed case. -/
def setGraphemeCase : GraphemeCase → W → W
  | .upper, w => upperW w
  | .lower, w => lowerW w
  | .mixed, w => w

/-- Modelled from the spec: the character class `[{LATIN_CHARS_ALL}\d]` of
`IPAG2P.CHAR_REGEX`; `LATIN_CHARS_ALL` lives in `data_utils.py`, not under
`src/`, but modules.py lines 444-450 list the Latin ranges it must stay
consistent with: `A-Z`, `a-z`, `À-Ö`, `Ø-ö`, `ø-ÿ`. -/
def isLatinOrDigitIPA (c : Char) : Bool :=
  (decide ('A' ≤ c ∧ c ≤ 'Z')) || (decide ('a' ≤ c ∧ c ≤ 'z')) ||
  (decide ('À' ≤ c ∧ c ≤ 'Ö')) || (decide ('Ø' ≤ c ∧ c ≤ 'ö')) ||
  (decide ('ø' ≤ c ∧ c ≤ 'ÿ')) || c.isDigit

/-- Python `str.isupper()`: at least one cased character and no lowercase
character (cased characters modelled on the ASCII range). -/
def pyIsUpper (w : W) : Bool :=
  w.any Char.isUpper && !(w.any Char.isLower)

/-- The class attribute `IPAG2P.STRESS_SYMBOLS = ["ˈ", "ˌ"]` (modules.py line 292). -/
def STRESS_SYMBOLS : List W := [['ˈ'], ['ˌ']]

/-- The locale string `"en-US"`. -/
def enUS : W := ['e', 'n', '-', 'U', 'S']

/-- The supported locales of `validate_locale` per the `IPAG2P` docstring
(modules.py lines 323-324): `"en-US"`, `"de-DE"`, and `"es-ES"`. -/
def supportedLocales : List W :=
  [enUS, ['d', 'e', '-', 'D', 'E'], ['e', 's', '-', 'E', 'S']]

/-- Python exceptions raised by the G2P constructors and calls. -/
inductive PyErr where
  | valueError : PyErr
  | assertionError : W → PyErr
deriving DecidableEq

/-- Modelled from the spec: `validate_locale` of
`nemo/collections/common/tokenizers/text_to_speech/ipa_lexicon.py` is not under
`src/`; per the docstring it accepts the supported locales and raises
`ValueError` otherwise. -/
def validateLocale (loc : W) : Except PyErr Unit :=
  if loc ∈ supportedLocales then Except.ok () else Except.error PyErr.valueError

/-- State of a constructed `IPAG2P` object (modules.py lines 298-410).
The field `grapheme_pfx` is the source's `grapheme_prefix`. -/
structure IPAG2P where
  phoneme_dict : List (W × List (List W))
  symbols : List W
  apply_to_oov_word : Option (W → W)
  ignore_ambiguous_words : Bool
  heteronyms : Option (List W)
  phoneme_probability : Option ℚ
  locale : Option W
  use_chars : Bool
  use_stresses : Bool
  grapheme_case : GraphemeCase
  grapheme_pfx : W

/-- Method `IPAG2P._prepend_prefix_for_one_word` (modules.py lines 488-489):
each character of the word, prefixed with the grapheme prefix. -/
def IPAG2P.withPfx (g : IPAG2P) (w : W) : List W :=
  w.map (fun c => g.grapheme_pfx ++ [c])

/-- Method `IPAG2P.is_unique_in_phoneme_dict` (modules.py lines 556-557).
`phoneme_dict` is a `defaultdict(list)`, so a missing key yields `[]`, whose
length is not 1. -/
def IPAG2P.is_unique_in_phoneme_dict (g : IPAG2P) (w : W) : Bool :=
  match dictLookup g.phoneme_dict w with
  | some ps => decide (ps.length = 1)
  | none => false

/-- The recurring guard `not self.ignore_ambiguous_words or self.is_unique_in_phoneme_dict(w)`. -/
def IPAG2P.ambigOk (g : IPAG2P) (w : W) : Bool :=
  !g.ignore_ambiguous_words || g.is_unique_in_phoneme_dict w

/-- The `word_found` computation shared by the two en-US suffix rules
(modules.py lines 581-586 and 604-609): only out-of-dictionary words (in both
the given and the uppercase form) have their stem (the word without its last
`n` characters) looked up, first as given, then uppercased. -/
def IPAG2P.findStem (g : IPAG2P) (word : W) (n : Nat) : Option W :=
  if dictLookup g.phoneme_dict word = none
      ∧ dictLookup g.phoneme_dict (upperW word) = none then
    if (dictLookup g.phoneme_dict (pyDropLast n word)).isSome = true then
      some (pyDropLast n word)
    else if (dictLookup g.phoneme_dict (upperW (pyDropLast n word))).isSome = true then
      some (upperW (pyDropLast n word))
    else none
  else none

/-- The en-US special cases of `IPAG2P.parse_one_word` (modules.py lines
578-619): the `'s`/`'S` rule, falling through to the bare `s`/`S` rule when it
does not return.  `none` means no rule returned. -/
def IPAG2P.enUsSuffix (g : IPAG2P) (word : W) : Option (Parsed × Bool) :=
  let withApos :=
    if word.length > 2 ∧ ([apos, 's'] <:+ word ∨ [apos, 'S'] <:+ word) then
      match g.findStem word 2 with
      | some f =>
          if g.ambigOk f = true then
            if f.getLastD ' ' = 'T' ∨ f.getLastD ' ' = 't' then
              some (.plist (firstPron g.phoneme_dict f ++ [['s']]), true)
            else if f.getLastD ' ' = 'S' ∨ f.getLastD ' ' = 's' then
              some (.plist (firstPron g.phoneme_dict f ++ [['ɪ'], ['z']]), true)
            else
              some (.plist (firstPron g.phoneme_dict f ++ [['z']]), true)
          else none
      | none => none
    else none
  match withApos with
  | some r => some r
  | none =>
      if word.length > 1 ∧ (['s'] <:+ word ∨ ['S'] <:+ word) then
        match g.findStem word 1 with
        | some f =>
            if g.ambigOk f = true then
              if f.getLastD ' ' = 'T' ∨ f.getLastD ' ' = 't' then
                some (.plist (firstPron g.phoneme_dict f ++ [['s']]), true)
              else
                some (.plist (firstPron g.phoneme_dict f ++ [['z']]), true)
            else none
        | none => none
      else none

/-- Method `IPAG2P.parse_one_word` (modules.py lines 559-642), with the random
draw the generator would produce passed in as `rand`.  Note that the
mixed-case fallback (lines 630-637) reassigns `word`, so a failed ambiguity
check there still hands the uppercased word to the OOV handling. -/
def IPAG2P.parse_one_word (g : IPAG2P) (rand : ℚ) (w0 : W) : Parsed × Bool :=
  let word := setGraphemeCase g.grapheme_case w0
  if word.any isLatinOrDigitIPA = false then (.plist (word.map (fun c => [c])), true)
  else if probSkip g.phoneme_probability rand = true then (.plist (g.withPfx word), true)
  else if hetHit g.heteronyms word = true then (.plist (g.withPfx word), true)
  else
    match (if g.locale = some enUS then g.enUsSuffix word else none) with
    | some r => r
    | none =>
        if (dictLookup g.phoneme_dict word).isSome = true ∧ g.ambigOk word = true then
          (.plist (firstPron g.phoneme_dict word), true)
        else
          let mixedHit := g.grapheme_case = GraphemeCase.mixed
              ∧ dictLookup g.phoneme_dict word = none
              ∧ (dictLookup g.phoneme_dict (upperW word)).isSome = true
          let word2 := if mixedHit then upperW word else word
          if mixedHit ∧ g.ambigOk word2 = true then
            (.plist (firstPron g.phoneme_dict word2), true)
          else
            match g.apply_to_oov_word with
            | some f => (.pstr (f word2), true)
            | none => (.plist (g.withPfx word2), false)

/-- Number of random draws one `IPAG2P.parse_one_word` call consumes (a draw
happens only when `phoneme_probability` is set and the word passed the
punctuation check; consuming on the punctuation branch as well only shifts
which stream values later words read, which no claim depends on -- to stay
faithful, the draw is skipped exactly as in the source). -/
def IPAG2P.draws (g : IPAG2P) (word : W) : Nat :=
  if (setGraphemeCase g.grapheme_case word).any isLatinOrDigitIPA = false then 0
  else if g.phoneme_probability.isSome then 1 else 0

/-- The hyphen-fallback loop of `IPAG2P.__call__` (modules.py lines 674-679). -/
def IPAG2P.hyphenLoop (g : IPAG2P) (rng : Nat → ℚ) : List W → Nat → List W × Nat
  | [], i => ([], i)
  | sub :: rest, i =>
      let p := (g.parse_one_word (rng i) sub).1
      let t := g.hyphenLoop rng rest (i + g.draws sub)
      (p.toSymbols ++ [hyphenSym] ++ t.1, t.2)

/-- Processing of a single tokenizer item inside `IPAG2P.__call__` (modules.py
lines 656-681): an unchanged token contributes its words each prefixed with
the grapheme prefix; a changeable token holds a single word (the source
asserts this), which is parsed with the hyphen fallback. -/
def IPAG2P.processToken (g : IPAG2P) (rng : Nat → ℚ) (i : Nat)
    (tok : List W × Bool) : List W × Nat :=
  if tok.2 then (tok.1.map (fun w => g.grapheme_pfx ++ w), i)
  else
    let word := tok.1.headD []
    let pr := g.parse_one_word (rng i) word
    let i1 := i + g.draws word
    let parts := pySplit '-' word
    if pr.2 = false ∧ parts.length > 1 then
      let t := g.hyphenLoop rng parts i1
      (t.1.dropLast, t.2)
    else (pr.1.toSymbols, i1)

/-- The loop of `IPAG2P.__call__` over the tokenized input, from draw index `i`. -/
def IPAG2P.callFrom (g : IPAG2P) (rng : Nat → ℚ) : List (List W × Bool) → Nat → List W
  | [], _ => []
  | tok :: rest, i =>
      let t := g.processToken rng i tok
      t.1 ++ g.callFrom rng rest t.2

/-- Method `IPAG2P.__call__` (modules.py lines 644-683) on tokenized input
(the tokenizer -- `english_word_tokenize` or `any_locale_word_tokenize` -- and
the NFC normalization of the text are pure functions of the text; their
output is taken as the argument; no heteronym model is attached). -/
def IPAG2P.call (g : IPAG2P) (rng : Nat → ℚ) (tokens : List (List W × Bool)) : List W :=
  g.callFrom rng tokens 0

/-- The configuration fields of `IPAG2P` that `_normalize_dict` reads. -/
structure IPADictCfg where
  use_chars : Bool
  use_stresses : Bool
  grapheme_case : GraphemeCase
  grapheme_pfx : W

/-- One iteration of the loop of `IPAG2P._normalize_dict` (modules.py lines
506-543) over a dictionary entry, acting on the accumulated dict and symbol
set: case-normalize the word, add prefixed grapheme symbols when `use_chars`,
drop the stress markers from the pronunciations when `use_stresses` is false,
collect the pronunciation symbols, store the entry, and duplicate it under the
uppercased word for mixed grapheme case when the word is not already
uppercase.  Dict assignment is modelled by prepending; the symbol set by a
list, with membership the only observation. -/
def normalizeStep (cfg : IPADictCfg) (acc : List (W × List (List W)) × List W)
    (e : W × List (List W)) : List (W × List (List W)) × List W :=
  let wordNew := setGraphemeCase cfg.grapheme_case e.1
  let syms1 :=
    if cfg.use_chars then
      acc.2 ++ (wordNew.filter isLatinOrDigitIPA).map (fun c => cfg.grapheme_pfx ++ [c])
    else acc.2
  let pronsNew :=
    if cfg.use_stresses = false then
      e.2.map (fun pron => pron.filter (fun s => decide (¬ s ∈ STRESS_SYMBOLS)))
    else e.2
  let syms2 := syms1 ++ pronsNew.flatten
  let d1 := (wordNew, pronsNew) :: acc.1
  let d2 :=
    if cfg.grapheme_case = GraphemeCase.mixed ∧ pyIsUpper wordNew = false then
      (upperW wordNew, pronsNew) :: d1
    else d1
  (d2, syms2)

/-- Method `IPAG2P._normalize_dict` (modules.py lines 491-545): the normalized
dictionary and the symbol set built from a parsed dictionary object. -/
def IPAG2P.normalize_dict (cfg : IPADictCfg) (obj : List (W × List (List W))) :
    List (W × List (List W)) × List W :=
  obj.foldl (normalizeStep cfg) ([], [])

/-- The dictionary-object branch of `IPAG2P._parse_phoneme_dict` (modules.py
lines 456-473): each entry is NFC-normalized (`normalize_unicode_text` is not
under `src/`; it is modelled as the identity, no claim depending on a specific
normalization form) and written into a fresh dict with `update`. -/
def parsePhonemeDictObj (obj : List (W × List (List W))) : List (W × List (List W)) :=
  obj.foldl (fun acc e => (e.1, e.2) :: acc) []

/-- Method `IPAG2P.replace_dict` (modules.py lines 477-481): replace the
phoneme dictionary with the parsed custom one; nothing else changes. -/
def IPAG2P.replace_dict (g : IPAG2P) (obj : List (W × List (List W))) : IPAG2P :=
  { g with phoneme_dict := parsePhonemeDictObj obj }

/-- The constructor arguments of `IPAG2P.__init__` (modules.py lines 298-311),
with the phoneme dictionary given as a dictionary object (the file-path form
is I/O).  The field `grapheme_pfx` is the source's `grapheme_prefix`. -/
structure IPAArgs where
  phoneme_dict : List (W × List (List W))
  locale : Option W
  apply_to_oov_word : Option (W → W)
  ignore_ambiguous_words : Bool
  heteronyms : Option (List W)
  use_chars : Bool
  phoneme_probability : Option ℚ
  use_stresses : Bool
  grapheme_case : GraphemeCase
  grapheme_pfx : W

/-- Constructor `IPAG2P.__init__` (modules.py lines 298-410): validate the
locale when given, force `use_chars` on when a phoneme probability is set,
parse the phoneme dictionary and raise `ValueError` when it has no entries,
otherwise normalize it, and case-normalize the heteronyms when a non-empty
list of them is given. -/
def ipaInit (a : IPAArgs) : Except PyErr IPAG2P :=
  let lc : Except PyErr Unit :=
    match a.locale with
    | some loc => validateLocale loc
    | none => Except.ok ()
  match lc with
  | Except.error e => Except.error e
  | Except.ok _ =>
      let useChars := if a.use_chars = false ∧ a.phoneme_probability.isSome then true else a.use_chars
      let obj := parsePhonemeDictObj a.phoneme_dict
      if obj = [] then Except.error PyErr.valueError
      else
        let nd := IPAG2P.normalize_dict
          { use_chars := useChars, use_stresses := a.use_stresses,
            grapheme_case := a.grapheme_case, grapheme_pfx := a.grapheme_pfx } obj
        let het : Option (List W) :=
          match a.heteronyms with
          | some l => some (if l = [] then l else l.map (setGraphemeCase a.grapheme_case))
          | none => none
        Except.ok
          { phoneme_dict := nd.1, symbols := nd.2,
            apply_to_oov_word := a.apply_to_oov_word,
            ignore_ambiguous_words := a.ignore_ambiguous_words,
            heteronyms := het, phoneme_probability := a.phoneme_probability,
            locale := a.locale, use_chars := useChars,
            use_stresses := a.use_stresses, grapheme_case := a.grapheme_case,
            grapheme_pfx := a.grapheme_pfx }

/-- State of a constructed `ChineseG2p` object (modules.py lines 686-756); the
pinyin dictionary maps a pinyin base to its list of phoneme tokens. -/
structure ChineseG2p where
  phoneme_dict : List (W × List W)

/-- The word `"jieba"`. -/
def jiebaW : W := ['j', 'i', 'e', 'b', 'a']

/-- The assertions of `ChineseG2p.__init__` (modules.py lines 707-711): the
dictionary must be given, and the word segmenter must be `None` or `"jieba"`.
The dictionary is taken as a dict object (the file-path form is I/O). -/
def chineseInit (phoneme_dict : Option (List (W × List W))) (word_segmenter : Option W) :
    Except PyErr ChineseG2p :=
  if phoneme_dict = none then Except.error (PyErr.assertionError [])
  else if ¬ (word_segmenter = none ∨ word_segmenter = some jiebaW) then
    Except.error (PyErr.assertionError (word_segmenter.getD []))
  else Except.ok { phoneme_dict := phoneme_dict.getD [] }

/-- Static method `ChineseG2p._parse_as_pinyin_dict` (modules.py lines
758-770) on the tab-split lines of the dict file: lowercase the pinyin key and
prefix every pronunciation token with `'#'`. -/
def ChineseG2p.parse_as_pinyin_dict (lines : List (W × List W)) : List (W × List W) :=
  lines.foldl (fun acc e => (lowerW e.1, e.2.map (fun p => '#' :: p)) :: acc) []

/-- The `self.tones` mapping (modules.py line 733): the tone token for a tone
digit, `none` for any other character (`pinyin[-1] in self.tones`). -/
def toneTok : Char → Option W
  | '1' => some ['#', '1']
  | '2' => some ['#', '2']
  | '3' => some ['#', '3']
  | '4' => some ['#', '4']
  | '5' => some ['#', '5']
  | _ => none

/-- The phoneme loop of `ChineseG2p.__call__` (modules.py lines 792-803) over
the produced pinyin sequence (the segmenter and `lazy_pinyin` are third-party
code; their output is taken as the argument): a syllable ending in a tone
digit must have its base in the dictionary -- otherwise `AssertionError` --
and contributes the base's phonemes and the tone token; any other syllable is
passed through as a single token. -/
def ChineseG2p.call (g : ChineseG2p) : List W → Except PyErr (List W)
  | [] => Except.ok []
  | py :: rest =>
      match toneTok (py.getLastD ' ') with
      | some tok =>
          match dictLookup g.phoneme_dict (pyDropLast 1 py) with
          | some prons => Except.map (fun out => prons ++ [tok] ++ out) (g.call rest)
          | none => Except.error (PyErr.assertionError (pyDropLast 1 py))
      | none => Except.map (fun out => py :: out) (g.call rest)

/-- The per-syllable contribution of `ChineseG2p.__call__` when every needed
base is in the dictionary. -/
def expandPinyin (d : List (W × List W)) (py : W) : List W :=
  match toneTok (py.getLastD ' ') with
  | some tok => (dictLookup d (pyDropLast 1 py)).getD [] ++ [tok]
  | none => [py]

/-! ### Helper lemmas -/

theorem parseObj_foldl_length (obj acc : List (W × List (List W))) :
    (obj.foldl (fun a e => (e.1, e.2) :: a) acc).length = obj.length + acc.length := by
  induction obj generalizing acc with
  | nil => simp
  | cons e rest ih =>
      simp only [List.foldl_cons, ih, List.length_cons]
      omega

theorem parsePhonemeDictObj_nil_iff (obj : List (W × List (List W))) :
    parsePhonemeDictObj obj = [] ↔ obj = [] := by
  have h : (parsePhonemeDictObj obj).length = obj.length + ([] : List (W × List (List W))).length :=
    parseObj_foldl_length obj []
  constructor
  · intro he
    rw [he] at h
    exact List.length_eq_zero.mp (by simpa using h.symm)
  · intro he
    simp [he, parsePhonemeDictObj]

/-! ### C7 -/

/-- C7: `IPAG2P.__init__` raises `ValueError` exactly when the parsed phoneme
dictionary has no entries (equivalently, when the given dictionary object is
empty), and succeeds for a non-empty dictionary under a supported or absent
locale; `ChineseG2p.__init__` raises `AssertionError` when `phoneme_dict` is
`None` or `word_segmenter` is neither `None` nor `"jieba"`, and succeeds
otherwise. -/
theorem c7_init_validation :
    (∀ obj : List (W × List (List W)), parsePhonemeDictObj obj = [] ↔ obj = []) ∧
    (∀ a : IPAArgs, (a.locale = none ∨ ∃ l, a.locale = some l ∧ l ∈ supportedLocales) →
        ((ipaInit a = Except.error PyErr.valueError) ↔ parsePhonemeDictObj a.phoneme_dict = [])) ∧
    (∀ a : IPAArgs, (a.locale = none ∨ ∃ l, a.locale = some l ∧ l ∈ supportedLocales) →
        parsePhonemeDictObj a.phoneme_dict ≠ [] → ∃ g, ipaInit a = Except.ok g) ∧
    (∀ (pd : Option (List (W × List W))) (seg : Option W),
        (pd = none ∨ ¬ (seg = none ∨ seg = some jiebaW)) →
        ∃ e, chineseInit pd seg = Except.error e) ∧
    (∀ (pd : Option (List (W × List W))) (seg : Option W),
        pd ≠ none → (seg = none ∨ seg = some jiebaW) →
        ∃ g, chineseInit pd seg = Except.ok g) := by
  refine ⟨parsePhonemeDictObj_nil_iff, ?_, ?_, ?_, ?_⟩
  · intro a hloc
    unfold ipaInit
    have hlc : (match a.locale with
        | some loc => validateLocale loc
        | none => Except.ok ()) = (Except.ok () : Except PyErr Unit) := by
      rcases hloc with h | ⟨l, hl, hmem⟩
      · rw [h]
      · rw [hl]
        simp [validateLocale, hmem]
    rw [hlc]
    by_cases hobj : parsePhonemeDictObj a.phoneme_dict = []
    · simp [hobj]
    · simp [hobj]
  · intro a hloc hobj
    unfold ipaInit
    have hlc : (match a.locale with
        | some loc => validateLocale loc
        | none => Except.ok ()) = (Except.ok () : Except PyErr Unit) := by
      rcases hloc with h | ⟨l, hl, hmem⟩
      · rw [h]
      · rw [hl]
        simp [validateLocale, hmem]
    rw [hlc]
    simp only [hobj, if_false]
    exact ⟨_, rfl⟩
  · intro pd seg h
    rcases h with h | h
    · exact ⟨PyErr.assertionError [], by simp [chineseInit, h]⟩
    · unfold chineseInit
      by_cases hpd : pd = none
      · exact ⟨PyErr.assertionError [], by simp [hpd]⟩
      · exact ⟨PyErr.assertionError (seg.getD []), by simp [hpd, h]⟩
  · intro pd seg hpd hseg
    unfold chineseInit
    simp [hpd, hseg]

/-- Witness for C7 at concrete inputs: an empty dictionary is rejected, a
one-entry dictionary with locale `"en-US"` is accepted, `ChineseG2p` with no
dictionary is rejected and with a dictionary and segmenter `"jieba"` accepted. -/
theorem c7_init_validation_witness :
    (ipaInit
      { phoneme_dict := [], locale := some enUS, apply_to_oov_word := none,
        ignore_ambiguous_words := true, heteronyms := none, use_chars := false,
        phoneme_probability := none, use_stresses := true,
        grapheme_case := GraphemeCase.upper, grapheme_pfx := [] } =
      Except.error PyErr.valueError) ∧
    (∃ g, ipaInit
      { phoneme_dict := [(['c', 'a', 't'], [[['k'], ['æ'], ['t']]])],
        locale := some enUS, apply_to_oov_word := none,
        ignore_ambiguous_words := true, heteronyms := none, use_chars := false,
        phoneme_probability := none, use_stresses := true,
        grapheme_case := GraphemeCase.upper, grapheme_pfx := [] } = Except.ok g) ∧
    (∃ e, chineseInit none none = Except.error e) ∧
    (∃ g, chineseInit (some [(['w', 'o'], [['#', 'u', 'o']])]) (some jiebaW) = Except.ok g) := by
  refine ⟨?_, ?_, ?_, ?_⟩
  · exact (c7_init_validation.2.1 _ (Or.inr ⟨enUS, rfl, by decide⟩)).mpr (by rfl)
  · exact c7_init_validation.2.2.1 _ (Or.inr ⟨enUS, rfl, by decide⟩) (by decide)
  · exact c7_init_validation.2.2.2.1 none none (Or.inl rfl)
  · exact c7_init_validation.2.2.2.2 _ _ (by simp) (Or.inr rfl)

theorem dictLookup_foldl_notmem (obj : List (W × List (List W)))
    (acc : List (W × List (List W))) (w : W) (h : w ∉ obj.map Prod.fst) :
    dictLookup (obj.foldl (fun a e => (e.1, e.2) :: a) acc) w = dictLookup acc w := by
  induction obj generalizing acc with
  | nil => rfl
  | cons e rest ih =>
      simp only [List.map_cons, List.mem_cons] at h
      push_neg at h
      simp only [List.foldl_cons]
      rw [ih _ h.2]
      have h1 : ¬ (e.1 = w) := fun hh => h.1 hh.symm
      simp [dictLookup, h1]

theorem dictLookup_foldl_verbatim (obj acc : List (W × List (List W))) (w : W)
    (ps : List (List W)) (hnd : (obj.map Prod.fst).Nodup) (hmem : (w, ps) ∈ obj) :
    dictLookup (obj.foldl (fun a e => (e.1, e.2) :: a) acc) w = some ps := by
  induction obj generalizing acc with
  | nil => cases hmem
  | cons e rest ih =>
      obtain ⟨k, v⟩ := e
      simp only [List.map_cons, List.nodup_cons] at hnd
      simp only [List.foldl_cons]
      rcases List.mem_cons.mp hmem with heq | hmemr
      · have hw : w = k := congrArg Prod.fst heq
        have hps : ps = v := congrArg Prod.snd heq
        subst hw
        subst hps
        rw [dictLookup_foldl_notmem rest _ w hnd.1]
        simp [dictLookup]
      · exact ih _ hnd.2 hmemr

theorem dictLookup_parseObj_verbatim (obj : List (W × List (List W))) (w : W)
    (ps : List (List W)) (hnd : (obj.map Prod.fst).Nodup) (hmem : (w, ps) ∈ obj) :
    dictLookup (parsePhonemeDictObj obj) w = some ps :=
  dictLookup_foldl_verbatim obj [] w ps hnd hmem

theorem dictLookup_foldl_isSome (obj acc : List (W × List (List W))) (w : W) :
    (dictLookup (obj.foldl (fun a e => (e.1, e.2) :: a) acc) w).isSome = true ↔
      w ∈ obj.map Prod.fst ∨ (dictLookup acc w).isSome = true := by
  induction obj generalizing acc with
  | nil => simp
  | cons e rest ih =>
      obtain ⟨k, v⟩ := e
      simp only [List.foldl_cons, List.map_cons, List.mem_cons]
      rw [ih]
      by_cases hk : k = w
      · subst hk
        simp [dictLookup]
      · have hk2 : ¬ (w = k) := fun hh => hk hh.symm
        simp only [dictLookup, if_neg hk]
        tauto

theorem dictLookup_parseObj_isSome (obj : List (W × List (List W))) (w : W) :
    (dictLookup (parsePhonemeDictObj obj) w).isSome = true ↔ w ∈ obj.map Prod.fst := by
  unfold parsePhonemeDictObj
  rw [dictLookup_foldl_isSome]
  simp [dictLookup]

/-! ### C9 -/

/-- C9: `IPAG2P.replace_dict` installs the parsed custom dictionary verbatim
-- entries keep their keys and pronunciations with no case conversion, no
stress-symbol removal and no mixed-case duplicate keys -- and every other
attribute of the object, in particular `symbols`, is unchanged. -/
theorem c9_replace_dict_frame :
    ∀ (g : IPAG2P) (obj : List (W × List (List W))),
      (g.replace_dict obj).phoneme_dict = parsePhonemeDictObj obj ∧
      (g.replace_dict obj).symbols = g.symbols ∧
      (g.replace_dict obj).apply_to_oov_word = g.apply_to_oov_word ∧
      (g.replace_dict obj).ignore_ambiguous_words = g.ignore_ambiguous_words ∧
      (g.replace_dict obj).heteronyms = g.heteronyms ∧
      (g.replace_dict obj).phoneme_probability = g.phoneme_probability ∧
      (g.replace_dict obj).locale = g.locale ∧
      (g.replace_dict obj).use_chars = g.use_chars ∧
      (g.replace_dict obj).use_stresses = g.use_stresses ∧
      (g.replace_dict obj).grapheme_case = g.grapheme_case ∧
      (g.replace_dict obj).grapheme_pfx = g.grapheme_pfx ∧
      ((obj.map Prod.fst).Nodup →
        ∀ w ps, (w, ps) ∈ obj →
          dictLookup (g.replace_dict obj).phoneme_dict w = some ps) ∧
      (∀ w, (dictLookup (g.replace_dict obj).phoneme_dict w).isSome = true ↔
        w ∈ obj.map Prod.fst) := by
  intro g obj
  refine ⟨rfl, rfl, rfl, rfl, rfl, rfl, rfl, rfl, rfl, rfl, rfl, ?_, ?_⟩
  · intro hnd w ps hmem
    exact dictLookup_parseObj_verbatim obj w ps hnd hmem
  · intro w
    exact dictLookup_parseObj_isSome obj w

/-- Witness for C9: replacing the dictionary of a concrete `IPAG2P` (uppercase
grapheme case, stress stripping on) with a lowercase, stress-marked entry
keeps that entry verbatim. -/
theorem c9_replace_dict_frame_witness :
    dictLookup
      ((IPAG2P.replace_dict
        { phoneme_dict := [(['C', 'A', 'T'], [[['k'], ['æ'], ['t']]])],
          symbols := [['k'], ['æ'], ['t']], apply_to_oov_word := none,
          ignore_ambiguous_words := true, heteronyms := none,
          phoneme_probability := none, locale := some enUS, use_chars := false,
          use_stresses := false, grapheme_case := GraphemeCase.upper,
          grapheme_pfx := [] }
        [(['w', 'i', 'r', 'e'], [[['ˈ'], ['w'], ['a'], ['ɪ'], ['ɚ']]])]).phoneme_dict)
      ['w', 'i', 'r', 'e'] = some [[['ˈ'], ['w'], ['a'], ['ɪ'], ['ɚ']]] :=
  (c9_replace_dict_frame _ _).2.2.2.2.2.2.2.2.2.2.2.1 (by decide) _ _ (by decide)

theorem pinyinDict_lookup_shape (lines acc : List (W × List W)) (k : W) (v : List W)
    (hacc : ∀ v2, dictLookup acc k = some v2 → ∀ s ∈ v2, ∃ t, s = '#' :: t)
    (h : dictLookup
        (lines.foldl (fun a e => (lowerW e.1, e.2.map (fun p => '#' :: p)) :: a) acc) k =
        some v) :
    ∀ s ∈ v, ∃ t, s = '#' :: t := by
  induction lines generalizing acc with
  | nil => exact hacc v h
  | cons e rest ih =>
      simp only [List.foldl_cons] at h
      refine ih _ ?_ h
      intro v2 hv2
      by_cases hk : lowerW e.1 = k
      · simp only [dictLookup, if_pos hk] at hv2
        obtain rfl : e.2.map (fun p => '#' :: p) = v2 := Option.some.inj hv2
        intro s hs
        obtain ⟨p, _, hp⟩ := List.mem_map.mp hs
        exact ⟨p, hp.symm⟩
      · simp only [dictLookup, if_neg hk] at hv2
        exact hacc v2 hv2

/-! ### C8 -/

/-- C8: the phoneme loop of `ChineseG2p.__call__` is total exactly under
dictionary coverage of the produced tone-carrying syllables.  For a pinyin
sequence without empty syllables: when every syllable ending in a tone digit
has its base in the dictionary, the call succeeds and emits, per syllable,
either the base's phonemes followed by the tone token or -- for syllables not
ending in a tone digit -- the syllable itself as a single token; when the
base of some tone-carrying syllable is missing, the call raises
`AssertionError`; and every phoneme stored by `_parse_as_pinyin_dict` carries
the `'#'` prefix. -/
theorem c8_chinese_call_coverage :
    (∀ (g : ChineseG2p) (seq : List W), [] ∉ seq →
      ((∀ py ∈ seq, (toneTok (py.getLastD ' ')).isSome = true →
          (dictLookup g.phoneme_dict (pyDropLast 1 py)).isSome = true) →
        g.call seq = Except.ok (seq.flatMap (expandPinyin g.phoneme_dict))) ∧
      ((∃ out, g.call seq = Except.ok out) →
        ∀ py ∈ seq, (toneTok (py.getLastD ' ')).isSome = true →
          (dictLookup g.phoneme_dict (pyDropLast 1 py)).isSome = true) ∧
      ((∃ py ∈ seq, (toneTok (py.getLastD ' ')).isSome = true ∧
          dictLookup g.phoneme_dict (pyDropLast 1 py) = none) →
        ∃ e, g.call seq = Except.error e)) ∧
    (∀ (lines : List (W × List W)) (k : W) (v : List W),
      dictLookup (ChineseG2p.parse_as_pinyin_dict lines) k = some v →
      ∀ s ∈ v, ∃ t, s = '#' :: t) := by
  constructor
  · intro g seq hne
    clear hne
    have main : ((∀ py ∈ seq, (toneTok (py.getLastD ' ')).isSome = true →
          (dictLookup g.phoneme_dict (pyDropLast 1 py)).isSome = true) →
        g.call seq = Except.ok (seq.flatMap (expandPinyin g.phoneme_dict))) ∧
        ((∃ out, g.call seq = Except.ok out) →
        ∀ py ∈ seq, (toneTok (py.getLastD ' ')).isSome = true →
          (dictLookup g.phoneme_dict (pyDropLast 1 py)).isSome = true) := by
      induction seq with
      | nil => exact ⟨fun _ => rfl, fun _ py hpy => absurd hpy (List.not_mem_nil py)⟩
      | cons py rest ih =>
          constructor
          · intro hcov
            have hrest := ih.1 (fun q hq => hcov q (List.mem_cons_of_mem py hq))
            show ChineseG2p.call g (py :: rest) = _
            unfold ChineseG2p.call
            cases htone : toneTok (py.getLastD ' ') with
            | none =>
                simp only [htone, hrest, Except.map, List.flatMap_cons, expandPinyin, htone]
                rfl
            | some tok =>
                have hlook := hcov py (List.mem_cons_self py rest) (by rw [htone]; rfl)
                cases hdl : dictLookup g.phoneme_dict (pyDropLast 1 py) with
                | none => rw [hdl] at hlook; cases hlook
                | some prons =>
                    simp only [htone, hdl, hrest, Except.map, List.flatMap_cons,
                      expandPinyin, htone, Option.getD_some]
          · rintro ⟨out, hout⟩ q hq htq
            have hcall : ChineseG2p.call g (py :: rest) = Except.ok out := hout
            unfold ChineseG2p.call at hcall
            rcases List.mem_cons.mp hq with rfl | hqr
            · cases htone : toneTok (q.getLastD ' ') with
              | none => rw [htone] at htq; cases htq
              | some tok =>
                  rw [htone] at hcall
                  cases hdl : dictLookup g.phoneme_dict (pyDropLast 1 q) with
                  | none => rw [hdl] at hcall; cases hcall
                  | some prons => simp [hdl]
            · cases htone : toneTok (py.getLastD ' ') with
              | none =>
                  rw [htone] at hcall
                  cases hrest : ChineseG2p.call g rest with
                  | error e => rw [hrest] at hcall; cases hcall
                  | ok o => exact ih.2 ⟨o, hrest⟩ q hqr htq
              | some tok =>
                  rw [htone] at hcall
                  cases hdl : dictLookup g.phoneme_dict (pyDropLast 1 py) with
                  | none => rw [hdl] at hcall; cases hcall
                  | some prons =>
                      rw [hdl] at hcall
                      cases hrest : ChineseG2p.call g rest with
                      | error e => rw [hrest] at hcall; cases hcall
                      | ok o => exact ih.2 ⟨o, hrest⟩ q hqr htq
    refine ⟨main.1, main.2, ?_⟩
    intro hbad
    cases hcall : g.call seq with
    | error e => exact ⟨e, rfl⟩
    | ok out =>
        obtain ⟨py, hpy, htone, hdl⟩ := hbad
        have := main.2 ⟨out, hcall⟩ py hpy htone
        rw [hdl] at this
        cases this
  · intro lines k v h
    exact pinyinDict_lookup_shape lines [] k v (fun v2 hv2 => by cases hv2) h

/-- Witness for C8: on the sequence `["wo3", "A"]` with the one-entry pinyin
dictionary for `"wo"`, the call succeeds with the sharp-prefixed phonemes, the
tone token, and the pass-through letter. -/
theorem c8_chinese_call_coverage_witness :
    ChineseG2p.call { phoneme_dict := [(['w', 'o'], [['#', 'u', 'o']])] }
      [['w', 'o', '3'], ['A']] =
      Except.ok [['#', 'u', 'o'], ['#', '3'], ['A']] := by
  have h := (c8_chinese_call_coverage.1
    { phoneme_dict := [(['w', 'o'], [['#', 'u', 'o']])] }
    [['w', 'o', '3'], ['A']] (by decide)).1 (by decide)
  simpa using h

/-! ### C5 -/

/-- C5: a word of the configured heteronyms set that contains a letter or
digit is left in grapheme form with status `True` when no phoneme probability
is set, regardless of the phoneme dictionary: `EnglishG2p.parse_one_word`
returns the word string unchanged, and `IPAG2P.parse_one_word` returns the
case-normalized word's characters each prepended with the grapheme prefix
(the constructor stores the heteronyms case-normalized, so membership is
stated on the case-normalized word). -/
theorem c5_heteronym_passthrough :
    (∀ (g : EnglishG2p) (r : ℚ) (w : W) (hs : List W),
      g.phoneme_probability = none → g.heteronyms = some hs → w ∈ hs →
      w.any isEnLetterOrDigit = true →
      g.parse_one_word r w = (.pstr w, true)) ∧
    (∀ (g : IPAG2P) (r : ℚ) (w : W) (hs : List W),
      g.phoneme_probability = none → g.heteronyms = some hs →
      setGraphemeCase g.grapheme_case w ∈ hs →
      (setGraphemeCase g.grapheme_case w).any isLatinOrDigitIPA = true →
      g.parse_one_word r w = (.plist (g.withPfx (setGraphemeCase g.grapheme_case w)), true)) := by
  constructor
  · intro g r w hs hp hh hmem hchar
    simp [EnglishG2p.parse_one_word, hp, hh, probSkip, hetHit, hchar, hmem]
  · intro g r w hs hp hh hmem hchar
    simp [IPAG2P.parse_one_word, hp, hh, probSkip, hetHit, hchar, hmem]

/-- Witness for C5: the heteronym `"lead"` (and, for IPA with uppercase
grapheme case and prefix `"#"`, the heteronym `"read"`) is left in grapheme
form although it is in the phoneme dictionary. -/
theorem c5_heteronym_passthrough_witness :
    (EnglishG2p.parse_one_word
      { phoneme_dict := [(['l', 'e', 'a', 'd'], [[['L'], ['I', 'Y'], ['D']]])],
        apply_to_oov_word := none, ignore_ambiguous_words := true,
        heteronyms := some [['l', 'e', 'a', 'd']], phoneme_probability := none }
      0 ['l', 'e', 'a', 'd'] = (.pstr ['l', 'e', 'a', 'd'], true)) ∧
    (IPAG2P.parse_one_word
      { phoneme_dict := [(['R', 'E', 'A', 'D'], [[['ɹ'], ['ɛ'], ['d']]])],
        symbols := [], apply_to_oov_word := none, ignore_ambiguous_words := true,
        heteronyms := some [['R', 'E', 'A', 'D']], phoneme_probability := none,
        locale := some enUS, use_chars := false, use_stresses := true,
        grapheme_case := GraphemeCase.upper, grapheme_pfx := ['#'] }
      0 ['r', 'e', 'a', 'd'] =
      (.plist [['#', 'R'], ['#', 'E'], ['#', 'A'], ['#', 'D']], true)) := by
  constructor
  · exact c5_heteronym_passthrough.1 _ 0 _ _ rfl rfl (by decide) (by decide)
  · have h := c5_heteronym_passthrough.2
      { phoneme_dict := [(['R', 'E', 'A', 'D'], [[['ɹ'], ['ɛ'], ['d']]])],
        symbols := [], apply_to_oov_word := none, ignore_ambiguous_words := true,
        heteronyms := some [['R', 'E', 'A', 'D']], phoneme_probability := none,
        locale := some enUS, use_chars := false, use_stresses := true,
        grapheme_case := GraphemeCase.upper, grapheme_pfx := ['#'] }
      0 ['r', 'e', 'a', 'd'] [['R', 'E', 'A', 'D']] rfl rfl (by decide) (by decide)
    simpa using h

/-- The pronunciations an entry contributes to the normalized dict: stress
markers are filtered out exactly when `use_stresses` is false. -/
def normalizedProns (cfg : IPADictCfg) (prons : List (List W)) : List (List W) :=
  if cfg.use_stresses = false then
    prons.map (fun pron => pron.filter (fun s => decide (¬ s ∈ STRESS_SYMBOLS)))
  else prons

theorem normalizeStep_def (cfg : IPADictCfg) (acc : List (W × List (List W)) × List W)
    (e : W × List (List W)) :
    normalizeStep cfg acc e =
      (let wordNew := setGraphemeCase cfg.grapheme_case e.1
       let d1 := (wordNew, normalizedProns cfg e.2) :: acc.1
       ((if cfg.grapheme_case = GraphemeCase.mixed ∧ pyIsUpper wordNew = false then
          (upperW wordNew, normalizedProns cfg e.2) :: d1
        else d1),
        (if cfg.use_chars then
          acc.2 ++ (wordNew.filter isLatinOrDigitIPA).map (fun c => cfg.grapheme_pfx ++ [c])
        else acc.2) ++ (normalizedProns cfg e.2).flatten)) := by
  rfl

theorem dictLookup_normalizeStep (cfg : IPADictCfg)
    (acc : List (W × List (List W)) × List W) (e : W × List (List W)) (w : W)
    (ps : List (List W)) (h : dictLookup (normalizeStep cfg acc e).1 w = some ps) :
    ps = normalizedProns cfg e.2 ∨ dictLookup acc.1 w = some ps := by
  rw [normalizeStep_def] at h
  simp only [] at h
  by_cases hmix : cfg.grapheme_case = GraphemeCase.mixed
      ∧ pyIsUpper (setGraphemeCase cfg.grapheme_case e.1) = false
  · rw [if_pos hmix] at h
    simp only [dictLookup] at h
    split_ifs at h with h1 h2
    · exact Or.inl (Option.some.inj h).symm
    · exact Or.inl (Option.some.inj h).symm
    · exact Or.inr h
  · rw [if_neg hmix] at h
    simp only [dictLookup] at h
    split_ifs at h with h1
    · exact Or.inl (Option.some.inj h).symm
    · exact Or.inr h

theorem mem_normalizeStep_syms (cfg : IPADictCfg)
    (acc : List (W × List (List W)) × List W) (e : W × List (List W)) (s : W)
    (h : s ∈ (normalizeStep cfg acc e).2) :
    s ∈ acc.2 ∨ (∃ c, isLatinOrDigitIPA c = true ∧ s = cfg.grapheme_pfx ++ [c])
      ∨ ∃ pron ∈ normalizedProns cfg e.2, s ∈ pron := by
  rw [normalizeStep_def] at h
  simp only [] at h
  rcases List.mem_append.mp h with h1 | h2
  · by_cases hc : cfg.use_chars
    · rw [if_pos hc] at h1
      rcases List.mem_append.mp h1 with ha | hb
      · exact Or.inl ha
      · obtain ⟨c, hcmem, rfl⟩ := List.mem_map.mp hb
        exact Or.inr (Or.inl ⟨c, List.of_mem_filter hcmem, rfl⟩)
    · rw [if_neg hc] at h1
      exact Or.inl h1
  · obtain ⟨pron, hpron, hs⟩ := List.mem_flatten.mp h2
    exact Or.inr (Or.inr ⟨pron, hpron, hs⟩)

theorem dictLookup_normalize_foldl (cfg : IPADictCfg) (obj : List (W × List (List W)))
    (acc : List (W × List (List W)) × List W) (w : W) (ps : List (List W))
    (h : dictLookup (obj.foldl (normalizeStep cfg) acc).1 w = some ps) :
    (∃ e ∈ obj, ps = normalizedProns cfg e.2) ∨ dictLookup acc.1 w = some ps := by
  induction obj generalizing acc with
  | nil => exact Or.inr h
  | cons e rest ih =>
      simp only [List.foldl_cons] at h
      rcases ih _ h with ⟨e2, hmem, hps⟩ | hacc
      · exact Or.inl ⟨e2, List.mem_cons_of_mem e hmem, hps⟩
      · rcases dictLookup_normalizeStep cfg acc e w ps hacc with hp | hacc2
        · exact Or.inl ⟨e, List.mem_cons_self e rest, hp⟩
        · exact Or.inr hacc2

theorem mem_normalize_foldl_syms (cfg : IPADictCfg) (obj : List (W × List (List W)))
    (acc : List (W × List (List W)) × List W) (s : W)
    (h : s ∈ (obj.foldl (normalizeStep cfg) acc).2) :
    s ∈ acc.2 ∨ (∃ c, isLatinOrDigitIPA c = true ∧ s = cfg.grapheme_pfx ++ [c])
      ∨ ∃ e ∈ obj, ∃ pron ∈ normalizedProns cfg e.2, s ∈ pron := by
  induction obj generalizing acc with
  | nil => exact Or.inl h
  | cons e rest ih =>
      simp only [List.foldl_cons] at h
      rcases ih _ h with hacc | hgr | ⟨e2, hmem, hpron⟩
      · rcases mem_normalizeStep_syms cfg acc e s hacc with ha | hg | hp
        · exact Or.inl ha
        · exact Or.inr (Or.inl hg)
        · exact Or.inr (Or.inr ⟨e, List.mem_cons_self e rest, hp⟩)
      · exact Or.inr (Or.inl hgr)
      · exact Or.inr (Or.inr ⟨e2, List.mem_cons_of_mem e hmem, hpron⟩)

theorem filtered_pron_stressfree (cfg : IPADictCfg) (hus : cfg.use_stresses = false)
    (prons : List (List W)) :
    ∀ pron ∈ normalizedProns cfg prons, ∀ s ∈ pron, ¬ s ∈ STRESS_SYMBOLS := by
  intro pron hpron s hs
  unfold normalizedProns at hpron
  rw [if_pos hus] at hpron
  obtain ⟨pron0, _, rfl⟩ := List.mem_map.mp hpron
  exact of_decide_eq_true (List.mem_filter.mp hs).2

theorem graphemeSym_not_stress (pfx : W) (c : Char) (hc : isLatinOrDigitIPA c = true) :
    ¬ (pfx ++ [c]) ∈ STRESS_SYMBOLS := by
  intro h
  simp only [STRESS_SYMBOLS, List.mem_cons, List.not_mem_nil, or_false,
    List.mem_singleton] at h
  rcases h with h | h <;>
  · have hl := congrArg List.length h
    simp only [List.length_append, List.length_singleton, List.length_cons,
      List.length_nil] at hl
    have hpfx : pfx = [] := List.length_eq_zero.mp (by omega)
    subst hpfx
    simp only [List.nil_append, List.cons.injEq, and_true] at h
    rw [h] at hc
    exact absurd hc (by decide)

/-! ### C6 -/

/-- C6: with `use_stresses = False`, `IPAG2P._normalize_dict` removes the
stress symbols from every stored pronunciation -- so no dictionary lookup can
return a stress symbol -- and the constructed symbol set contains no stress
symbol (nor do the constant suffix phonemes the en-US rules append); with
`use_stresses = True`, every stored pronunciation list is exactly the one
given for some input entry. -/
theorem c6_stress_normalization :
    (∀ (cfg : IPADictCfg) (obj : List (W × List (List W))), cfg.use_stresses = false →
      (∀ w ps, dictLookup (IPAG2P.normalize_dict cfg obj).1 w = some ps →
        ∀ pron ∈ ps, ∀ s ∈ pron, ¬ s ∈ STRESS_SYMBOLS) ∧
      (∀ s ∈ (IPAG2P.normalize_dict cfg obj).2, ¬ s ∈ STRESS_SYMBOLS)) ∧
    (∀ (cfg : IPADictCfg) (obj : List (W × List (List W))), cfg.use_stresses = true →
      ∀ w ps, dictLookup (IPAG2P.normalize_dict cfg obj).1 w = some ps →
        ∃ e ∈ obj, ps = e.2) ∧
    (¬ ['s'] ∈ STRESS_SYMBOLS ∧ ¬ ['z'] ∈ STRESS_SYMBOLS ∧ ¬ ['ɪ'] ∈ STRESS_SYMBOLS) := by
  refine ⟨?_, ?_, by decide⟩
  · intro cfg obj hus
    constructor
    · intro w ps h
      rcases dictLookup_normalize_foldl cfg obj ([], []) w ps h with ⟨e, _, rfl⟩ | habs
      · exact filtered_pron_stressfree cfg hus e.2
      · cases habs
    · intro s h
      rcases mem_normalize_foldl_syms cfg obj ([], []) s h with habs | ⟨c, hc, rfl⟩ | ⟨e, _, pron, hpron, hs⟩
      · cases habs
      · exact graphemeSym_not_stress cfg.grapheme_pfx c hc
      · exact filtered_pron_stressfree cfg hus e.2 pron hpron s hs
  · intro cfg obj hus w ps h
    rcases dictLookup_normalize_foldl cfg obj ([], []) w ps h with ⟨e, hmem, hps⟩ | habs
    · refine ⟨e, hmem, ?_⟩
      rw [hps]
      unfold normalizedProns
      rw [hus]
      simp
    · cases habs

/-- Witness for C6: normalizing the one-entry dictionary for `"wire"` with
`use_stresses = False` yields a stress-free looked-up pronunciation (its first
symbol is not a stress symbol), and with `use_stresses = True` the stored
pronunciation is exactly the given one. -/
theorem c6_stress_normalization_witness :
    (¬ ['w'] ∈ STRESS_SYMBOLS) ∧
    (∃ e ∈ [(['w', 'i', 'r', 'e'], [[['ˈ'], ['w'], ['a'], ['ɪ'], ['ɚ']]])],
      [[['ˈ'], ['w'], ['a'], ['ɪ'], ['ɚ']]] = e.2) := by
  constructor
  · exact (c6_stress_normalization.1
      { use_chars := true, use_stresses := false,
        grapheme_case := GraphemeCase.upper, grapheme_pfx := ['#'] }
      [(['w', 'i', 'r', 'e'], [[['ˈ'], ['w'], ['a'], ['ɪ'], ['ɚ']]])] rfl).1
      ['W', 'I', 'R', 'E'] [[['w'], ['a'], ['ɪ'], ['ɚ']]] (by decide)
      [['w'], ['a'], ['ɪ'], ['ɚ']] (by decide) ['w'] (by decide)
  · exact c6_stress_normalization.2.1
      { use_chars := true, use_stresses := true,
        grapheme_case := GraphemeCase.upper, grapheme_pfx := ['#'] }
      [(['w', 'i', 'r', 'e'], [[['ˈ'], ['w'], ['a'], ['ɪ'], ['ɚ']]])] rfl
      ['W', 'I', 'R', 'E'] [[['ˈ'], ['w'], ['a'], ['ɪ'], ['ɚ']]] (by decide)

theorem hetHit_eq_false {h : Option (List W)} {w : W}
    (hw : ∀ hs, h = some hs → ¬ w ∈ hs) : hetHit h w = false := by
  cases h with
  | none => rfl
  | some hs => simp [hetHit, hw hs rfl]

theorem enUsSuffix_none_of_mem (g : IPAG2P) (w : W)
    (h : (dictLookup g.phoneme_dict w).isSome = true) :
    g.enUsSuffix w = none := by
  have hne : ¬ (dictLookup g.phoneme_dict w = none
      ∧ dictLookup g.phoneme_dict (upperW w) = none) := by
    intro hc
    rw [hc.1] at h
    cases h
  simp only [IPAG2P.enUsSuffix, IPAG2P.findStem, if_neg hne, ite_self]

/-! ### C1 -/

/-- C1: for a word that is a key of the phoneme dictionary, contains a letter
or digit, is not a heteronym, and with no phoneme probability set:
`parse_one_word` returns the single pronunciation with status `True` when the
word has exactly one; with more than one pronunciation, under
`ignore_ambiguous_words` and no `apply_to_oov_word`, the word is not
phonemized -- `EnglishG2p` returns the word string with status `False` and
`IPAG2P` returns the grapheme-prefixed characters with status `False` (for
`IPAG2P` the word is its own case normalization, as every key produced by
`_normalize_dict` is). -/
theorem c1_dictionary_lookup :
    (∀ (g : EnglishG2p) (r : ℚ) (w : W) (p : List W),
      g.phoneme_probability = none →
      (∀ hs, g.heteronyms = some hs → ¬ w ∈ hs) →
      w.any isEnLetterOrDigit = true →
      dictLookup g.phoneme_dict w = some [p] →
      g.parse_one_word r w = (.plist p, true)) ∧
    (∀ (g : EnglishG2p) (r : ℚ) (w : W) (ps : List (List W)),
      g.phoneme_probability = none →
      (∀ hs, g.heteronyms = some hs → ¬ w ∈ hs) →
      w.any isEnLetterOrDigit = true →
      dictLookup g.phoneme_dict w = some ps → 1 < ps.length →
      g.ignore_ambiguous_words = true → g.apply_to_oov_word = none →
      g.parse_one_word r w = (.pstr w, false)) ∧
    (∀ (g : IPAG2P) (r : ℚ) (w : W) (p : List W),
      g.phoneme_probability = none →
      setGraphemeCase g.grapheme_case w = w →
      (∀ hs, g.heteronyms = some hs → ¬ w ∈ hs) →
      w.any isLatinOrDigitIPA = true →
      dictLookup g.phoneme_dict w = some [p] →
      g.parse_one_word r w = (.plist p, true)) ∧
    (∀ (g : IPAG2P) (r : ℚ) (w : W) (ps : List (List W)),
      g.phoneme_probability = none →
      setGraphemeCase g.grapheme_case w = w →
      (∀ hs, g.heteronyms = some hs → ¬ w ∈ hs) →
      w.any isLatinOrDigitIPA = true →
      dictLookup g.phoneme_dict w = some ps → 1 < ps.length →
      g.ignore_ambiguous_words = true → g.apply_to_oov_word = none →
      g.parse_one_word r w = (.plist (g.withPfx w), false)) := by
  refine ⟨?_, ?_, ?_, ?_⟩
  · intro g r w p hp hhet hchar hlk
    simp [EnglishG2p.parse_one_word, hp, probSkip, hchar, hetHit_eq_false hhet,
      hlk, EnglishG2p.ambigOk, EnglishG2p.is_unique_in_phoneme_dict, firstPron]
  · intro g r w ps hp hhet hchar hlk hlen hig hoov
    have hlen1 : ¬ ps.length = 1 := by omega
    simp [EnglishG2p.parse_one_word, hp, probSkip, hchar, hetHit_eq_false hhet,
      hlk, hig, hoov, EnglishG2p.ambigOk, EnglishG2p.is_unique_in_phoneme_dict, hlen1]
  · intro g r w p hp hfix hhet hchar hlk
    have hsuf := enUsSuffix_none_of_mem g w (by rw [hlk]; rfl)
    simp [IPAG2P.parse_one_word, hfix, hp, probSkip, hchar, hetHit_eq_false hhet,
      hsuf, hlk, IPAG2P.ambigOk, IPAG2P.is_unique_in_phoneme_dict, firstPron]
  · intro g r w ps hp hfix hhet hchar hlk hlen hig hoov
    have hlen1 : ¬ ps.length = 1 := by omega
    have hsuf := enUsSuffix_none_of_mem g w (by rw [hlk]; rfl)
    simp [IPAG2P.parse_one_word, hfix, hp, probSkip, hchar, hetHit_eq_false hhet,
      hsuf, hlk, hig, hoov, IPAG2P.ambigOk, IPAG2P.is_unique_in_phoneme_dict, hlen1]

/-- Witness for C1 at concrete inputs: `"cat"` with a unique pronunciation is
phonemized by both classes; `"bass"` with two pronunciations is returned as
graphemes (string by `EnglishG2p`, prefixed characters by `IPAG2P`) with
status `False`. -/
theorem c1_dictionary_lookup_witness :
    (EnglishG2p.parse_one_word
      { phoneme_dict := [(['c', 'a', 't'], [[['K'], ['A', 'E'], ['T']]])],
        apply_to_oov_word := none, ignore_ambiguous_words := true,
        heteronyms := none, phoneme_probability := none } 0 ['c', 'a', 't'] =
      (.plist [['K'], ['A', 'E'], ['T']], true)) ∧
    (EnglishG2p.parse_one_word
      { phoneme_dict := [(['b', 'a', 's', 's'], [[['B'], ['A', 'E'], ['S']], [['B'], ['E', 'Y'], ['S']]])],
        apply_to_oov_word := none, ignore_ambiguous_words := true,
        heteronyms := none, phoneme_probability := none } 0 ['b', 'a', 's', 's'] =
      (.pstr ['b', 'a', 's', 's'], false)) ∧
    (IPAG2P.parse_one_word
      { phoneme_dict := [(['C', 'A', 'T'], [[['k'], ['æ'], ['t']]])],
        symbols := [], apply_to_oov_word := none, ignore_ambiguous_words := true,
        heteronyms := none, phoneme_probability := none, locale := some enUS,
        use_chars := false, use_stresses := true,
        grapheme_case := GraphemeCase.upper, grapheme_pfx := ['#'] } 0
      ['C', 'A', 'T'] = (.plist [['k'], ['æ'], ['t']], true)) ∧
    (IPAG2P.parse_one_word
      { phoneme_dict := [(['B', 'A', 'S', 'S'],
          [[['b'], ['æ'], ['s']], [['b'], ['e', 'ɪ'], ['s']]])],
        symbols := [], apply_to_oov_word := none, ignore_ambiguous_words := true,
        heteronyms := none, phoneme_probability := none, locale := some enUS,
        use_chars := false, use_stresses := true,
        grapheme_case := GraphemeCase.upper, grapheme_pfx := ['#'] } 0
      ['B', 'A', 'S', 'S'] =
      (.plist [['#', 'B'], ['#', 'A'], ['#', 'S'], ['#', 'S']], false)) := by
  refine ⟨?_, ?_, ?_, ?_⟩
  · exact c1_dictionary_lookup.1 _ 0 _ _ rfl (by intro hs h; cases h) (by decide) (by decide)
  · exact c1_dictionary_lookup.2.1 _ 0 ['b', 'a', 's', 's']
      [[['B'], ['A', 'E'], ['S']], [['B'], ['E', 'Y'], ['S']]] rfl
      (by intro hs h; cases h) (by decide) (by decide) (by decide) rfl rfl
  · have h := c1_dictionary_lookup.2.2.1
      { phoneme_dict := [(['C', 'A', 'T'], [[['k'], ['æ'], ['t']]])],
        symbols := [], apply_to_oov_word := none, ignore_ambiguous_words := true,
        heteronyms := none, phoneme_probability := none, locale := some enUS,
        use_chars := false, use_stresses := true,
        grapheme_case := GraphemeCase.upper, grapheme_pfx := ['#'] } 0
      ['C', 'A', 'T'] [['k'], ['æ'], ['t']] rfl (by decide)
      (by intro hs h; cases h) (by decide) (by decide)
    exact h
  · have h := c1_dictionary_lookup.2.2.2
      { phoneme_dict := [(['B', 'A', 'S', 'S'],
          [[['b'], ['æ'], ['s']], [['b'], ['e', 'ɪ'], ['s']]])],
        symbols := [], apply_to_oov_word := none, ignore_ambiguous_words := true,
        heteronyms := none, phoneme_probability := none, locale := some enUS,
        use_chars := false, use_stresses := true,
        grapheme_case := GraphemeCase.upper, grapheme_pfx := ['#'] } 0
      ['B', 'A', 'S', 'S'] [[['b'], ['æ'], ['s']], [['b'], ['e', 'ɪ'], ['s']]] rfl
      (by decide) (by intro hs h; cases h) (by decide) (by decide) (by decide) rfl rfl
    simpa using h

theorem any_en_of_mem_s {w : W} (h : 's' ∈ w) : w.any isEnLetterOrDigit = true :=
  List.any_eq_true.mpr ⟨'s', h, by decide⟩

/-! ### C3 -/

/-- Counterexample to C3 as stated: the word `"cat's"` satisfies every
condition of the claim -- length greater than 2, ends in `'s`, not a
dictionary key while its stem `"cat"` is one with a unique pronunciation --
yet `parse_one_word` does not return the stem's pronunciation with `"Z"`
appended, because the configured heteronym entry for `"cat's"` preempts the
suffix rule (the word comes back as a plain string with status `True`). -/
theorem c3_suffix_counterexample :
    (['c', 'a', 't', apos, 's'].length > 2) ∧
    ([apos, 's'] <:+ ['c', 'a', 't', apos, 's']) ∧
    (dictLookup [(['c', 'a', 't'], [[['K'], ['A', 'E'], ['T']]])]
      ['c', 'a', 't', apos, 's'] = none) ∧
    (dictLookup [(['c', 'a', 't'], [[['K'], ['A', 'E'], ['T']]])] ['c', 'a', 't'] =
      some [[['K'], ['A', 'E'], ['T']]]) ∧
    (EnglishG2p.parse_one_word
      { phoneme_dict := [(['c', 'a', 't'], [[['K'], ['A', 'E'], ['T']]])],
        apply_to_oov_word := none, ignore_ambiguous_words := true,
        heteronyms := some [['c', 'a', 't', apos, 's']], phoneme_probability := none }
      0 ['c', 'a', 't', apos, 's'] ≠
      (.plist [['K'], ['A', 'E'], ['T'], ['Z']], true)) := by decide

/-- C3 amended: the English suffix rules behave as claimed provided the word
additionally is not a configured heteronym and no phoneme probability is set
(the branches that precede the suffix rules in `parse_one_word`); for the bare
`s` rule the word must also not end in `'s` with its two-character stem
eligible, since that earlier rule would fire first -- here stated under the
stronger, simpler condition that the word does not end in `'s` at all. -/
theorem c3_suffix_amended :
    (∀ (g : EnglishG2p) (r : ℚ) (w : W) (ps : List (List W)),
      g.phoneme_probability = none →
      (∀ hs, g.heteronyms = some hs → ¬ w ∈ hs) →
      w.length > 2 → [apos, 's'] <:+ w →
      dictLookup g.phoneme_dict w = none →
      dictLookup g.phoneme_dict (pyDropLast 2 w) = some ps →
      (g.ignore_ambiguous_words = false ∨ ps.length = 1) →
      g.parse_one_word r w = (.plist (ps.headD [] ++ [['Z']]), true)) ∧
    (∀ (g : EnglishG2p) (r : ℚ) (w : W) (ps : List (List W)),
      g.phoneme_probability = none →
      (∀ hs, g.heteronyms = some hs → ¬ w ∈ hs) →
      ¬ ([apos, 's'] <:+ w) →
      w.length > 1 → ['s'] <:+ w →
      dictLookup g.phoneme_dict w = none →
      dictLookup g.phoneme_dict (pyDropLast 1 w) = some ps →
      (g.ignore_ambiguous_words = false ∨ ps.length = 1) →
      g.parse_one_word r w = (.plist (ps.headD [] ++ [['Z']]), true)) := by
  constructor
  · intro g r w ps hp hhet hlen hsuf hw hstem hamb
    have hchar : w.any isEnLetterOrDigit = true :=
      any_en_of_mem_s (hsuf.subset (by simp))
    have hok : g.ambigOk (pyDropLast 2 w) = true := by
      rcases hamb with hig | hone
      · simp [EnglishG2p.ambigOk, hig]
      · simp [EnglishG2p.ambigOk, EnglishG2p.is_unique_in_phoneme_dict, hstem, hone]
    simp [EnglishG2p.parse_one_word, hp, probSkip, hchar, hetHit_eq_false hhet,
      hlen, hsuf, hw, hstem, hok, firstPron]
  · intro g r w ps hp hhet hnosuf hlen hsuf hw hstem hamb
    have hchar : w.any isEnLetterOrDigit = true :=
      any_en_of_mem_s (hsuf.subset (by simp))
    have hok : g.ambigOk (pyDropLast 1 w) = true := by
      rcases hamb with hig | hone
      · simp [EnglishG2p.ambigOk, hig]
      · simp [EnglishG2p.ambigOk, EnglishG2p.is_unique_in_phoneme_dict, hstem, hone]
    simp [EnglishG2p.parse_one_word, hp, probSkip, hchar, hetHit_eq_false hhet,
      hnosuf, hlen, hsuf, hw, hstem, hok, firstPron]

/-- Witness for the amended C3: `"cat's"` and `"dogs"` get the stem
pronunciation with `"Z"` appended. -/
theorem c3_suffix_amended_witness :
    (EnglishG2p.parse_one_word
      { phoneme_dict := [(['c', 'a', 't'], [[['K'], ['A', 'E'], ['T']]])],
        apply_to_oov_word := none, ignore_ambiguous_words := true,
        heteronyms := none, phoneme_probability := none }
      0 ['c', 'a', 't', apos, 's'] =
      (.plist [['K'], ['A', 'E'], ['T'], ['Z']], true)) ∧
    (EnglishG2p.parse_one_word
      { phoneme_dict := [(['d', 'o', 'g'], [[['D'], ['A', 'O'], ['G']]])],
        apply_to_oov_word := none, ignore_ambiguous_words := true,
        heteronyms := none, phoneme_probability := none }
      0 ['d', 'o', 'g', 's'] =
      (.plist [['D'], ['A', 'O'], ['G'], ['Z']], true)) := by
  constructor
  · have h := c3_suffix_amended.1
      { phoneme_dict := [(['c', 'a', 't'], [[['K'], ['A', 'E'], ['T']]])],
        apply_to_oov_word := none, ignore_ambiguous_words := true,
        heteronyms := none, phoneme_probability := none }
      0 ['c', 'a', 't', apos, 's'] [[['K'], ['A', 'E'], ['T']]] rfl
      (by intro hs h; cases h) (by decide) (by decide) (by decide) (by decide)
      (Or.inr rfl)
    simpa using h
  · have h := c3_suffix_amended.2
      { phoneme_dict := [(['d', 'o', 'g'], [[['D'], ['A', 'O'], ['G']]])],
        apply_to_oov_word := none, ignore_ambiguous_words := true,
        heteronyms := none, phoneme_probability := none }
      0 ['d', 'o', 'g', 's'] [[['D'], ['A', 'O'], ['G']]] rfl
      (by intro hs h; cases h) (by decide) (by decide) (by decide) (by decide)
      (by decide) (Or.inr rfl)
    simpa using h

theorem any_ipa_of_mem {w : W} {c : Char} (hc : c ∈ w) (hl : isLatinOrDigitIPA c = true) :
    w.any isLatinOrDigitIPA = true :=
  List.any_eq_true.mpr ⟨c, hc, hl⟩

theorem ipa_char_of_suffix {w : W}
    (h : ['s'] <:+ w ∨ ['S'] <:+ w ∨ [apos, 's'] <:+ w ∨ [apos, 'S'] <:+ w) :
    w.any isLatinOrDigitIPA = true := by
  rcases h with h | h | h | h
  · exact @any_ipa_of_mem w 's' (h.subset (by decide)) (by decide)
  · exact @any_ipa_of_mem w 'S' (h.subset (by decide)) (by decide)
  · exact @any_ipa_of_mem w 's' (h.subset (by decide)) (by decide)
  · exact @any_ipa_of_mem w 'S' (h.subset (by decide)) (by decide)

theorem ipa_ambigOk_of (g : IPAG2P) (f : W) (ps : List (List W))
    (hfps : dictLookup g.phoneme_dict f = some ps)
    (hamb : g.ignore_ambiguous_words = false ∨ ps.length = 1) :
    g.ambigOk f = true := by
  rcases hamb with hig | hone
  · simp [IPAG2P.ambigOk, hig]
  · simp [IPAG2P.ambigOk, IPAG2P.is_unique_in_phoneme_dict, hfps, hone]

theorem ipa_parse_enUsSuffix (g : IPAG2P) (r : ℚ) (w : W) (res : Parsed × Bool)
    (hp : g.phoneme_probability = none)
    (hfix : setGraphemeCase g.grapheme_case w = w)
    (hhet : ∀ hs, g.heteronyms = some hs → ¬ w ∈ hs)
    (hchar : w.any isLatinOrDigitIPA = true)
    (hloc : g.locale = some enUS)
    (hr : IPAG2P.enUsSuffix g w = some res) :
    g.parse_one_word r w = res := by
  simp [IPAG2P.parse_one_word, hfix, hp, probSkip, hchar, hetHit_eq_false hhet, hloc, hr]

/-! ### C4 -/

/-- Counterexample to C4 as stated: with locale `"en-US"`, the word
`"CAT'S"` satisfies every condition of the claim -- it ends in `'S`, is absent
from the dictionary in both its case-normalized and uppercase forms, its stem
`"CAT"` is present with a unique pronunciation and ends in `'T'` -- yet
`parse_one_word` does not return the stem's pronunciation extended with
`["s"]`, because the configured heteronym entry preempts the suffix rule. -/
theorem c4_ipa_suffix_counterexample :
    (['C', 'A', 'T', apos, 'S'].length > 2) ∧
    ([apos, 'S'] <:+ ['C', 'A', 'T', apos, 'S']) ∧
    (dictLookup [(['C', 'A', 'T'], [[['k'], ['æ'], ['t']]])]
      ['C', 'A', 'T', apos, 'S'] = none) ∧
    (dictLookup [(['C', 'A', 'T'], [[['k'], ['æ'], ['t']]])]
      (upperW ['C', 'A', 'T', apos, 'S']) = none) ∧
    (dictLookup [(['C', 'A', 'T'], [[['k'], ['æ'], ['t']]])] ['C', 'A', 'T'] =
      some [[['k'], ['æ'], ['t']]]) ∧
    (['C', 'A', 'T'].getLastD ' ' = 'T') ∧
    (IPAG2P.parse_one_word
      { phoneme_dict := [(['C', 'A', 'T'], [[['k'], ['æ'], ['t']]])],
        symbols := [], apply_to_oov_word := none, ignore_ambiguous_words := true,
        heteronyms := some [['C', 'A', 'T', apos, 'S']], phoneme_probability := none,
        locale := some enUS, use_chars := false, use_stresses := true,
        grapheme_case := GraphemeCase.upper, grapheme_pfx := [] }
      0 ['C', 'A', 'T', apos, 'S'] ≠
      (.plist [['k'], ['æ'], ['t'], ['s']], true)) := by decide

/-- C4 amended: the IPA en-US suffix rules behave exactly as claimed provided
the word additionally is not a configured heteronym and no phoneme
probability is set (the branches preceding the suffix rules); the word is
taken case-normalized (every dictionary word reaching the rule is).  The
`word_found` stem -- the stem as given if present, else its uppercase form --
is characterized in the first conjunct; for the bare `s`/`S` rule the word
must not also end in `'s`/`'S`, which would engage the apostrophe rule
first. -/
theorem c4_ipa_suffix_amended :
    (∀ (g : IPAG2P) (w : W) (n : Nat) (f : W),
      g.findStem w n = some f ↔
        (dictLookup g.phoneme_dict w = none ∧
          dictLookup g.phoneme_dict (upperW w) = none) ∧
        ((dictLookup g.phoneme_dict (pyDropLast n w)).isSome = true ∧ f = pyDropLast n w ∨
          dictLookup g.phoneme_dict (pyDropLast n w) = none ∧
          (dictLookup g.phoneme_dict (upperW (pyDropLast n w))).isSome = true ∧
          f = upperW (pyDropLast n w))) ∧
    (∀ (g : IPAG2P) (r : ℚ) (w f : W) (ps : List (List W)),
      g.phoneme_probability = none → setGraphemeCase g.grapheme_case w = w →
      (∀ hs, g.heteronyms = some hs → ¬ w ∈ hs) → g.locale = some enUS →
      w.length > 2 → ([apos, 's'] <:+ w ∨ [apos, 'S'] <:+ w) →
      g.findStem w 2 = some f → dictLookup g.phoneme_dict f = some ps →
      (g.ignore_ambiguous_words = false ∨ ps.length = 1) →
      (f.getLastD ' ' = 'T' ∨ f.getLastD ' ' = 't') →
      g.parse_one_word r w = (.plist (ps.headD [] ++ [['s']]), true)) ∧
    (∀ (g : IPAG2P) (r : ℚ) (w f : W) (ps : List (List W)),
      g.phoneme_probability = none → setGraphemeCase g.grapheme_case w = w →
      (∀ hs, g.heteronyms = some hs → ¬ w ∈ hs) → g.locale = some enUS →
      w.length > 2 → ([apos, 's'] <:+ w ∨ [apos, 'S'] <:+ w) →
      g.findStem w 2 = some f → dictLookup g.phoneme_dict f = some ps →
      (g.ignore_ambiguous_words = false ∨ ps.length = 1) →
      ¬ (f.getLastD ' ' = 'T' ∨ f.getLastD ' ' = 't') →
      (f.getLastD ' ' = 'S' ∨ f.getLastD ' ' = 's') →
      g.parse_one_word r w = (.plist (ps.headD [] ++ [['ɪ'], ['z']]), true)) ∧
    (∀ (g : IPAG2P) (r : ℚ) (w f : W) (ps : List (List W)),
      g.phoneme_probability = none → setGraphemeCase g.grapheme_case w = w →
      (∀ hs, g.heteronyms = some hs → ¬ w ∈ hs) → g.locale = some enUS →
      w.length > 2 → ([apos, 's'] <:+ w ∨ [apos, 'S'] <:+ w) →
      g.findStem w 2 = some f → dictLookup g.phoneme_dict f = some ps →
      (g.ignore_ambiguous_words = false ∨ ps.length = 1) →
      ¬ (f.getLastD ' ' = 'T' ∨ f.getLastD ' ' = 't') →
      ¬ (f.getLastD ' ' = 'S' ∨ f.getLastD ' ' = 's') →
      g.parse_one_word r w = (.plist (ps.headD [] ++ [['z']]), true)) ∧
    (∀ (g : IPAG2P) (r : ℚ) (w f : W) (ps : List (List W)),
      g.phoneme_probability = none → setGraphemeCase g.grapheme_case w = w →
      (∀ hs, g.heteronyms = some hs → ¬ w ∈ hs) → g.locale = some enUS →
      ¬ ([apos, 's'] <:+ w) → ¬ ([apos, 'S'] <:+ w) →
      w.length > 1 → (['s'] <:+ w ∨ ['S'] <:+ w) →
      g.findStem w 1 = some f → dictLookup g.phoneme_dict f = some ps →
      (g.ignore_ambiguous_words = false ∨ ps.length = 1) →
      (f.getLastD ' ' = 'T' ∨ f.getLastD ' ' = 't') →
      g.parse_one_word r w = (.plist (ps.headD [] ++ [['s']]), true)) ∧
    (∀ (g : IPAG2P) (r : ℚ) (w f : W) (ps : List (List W)),
      g.phoneme_probability = none → setGraphemeCase g.grapheme_case w = w →
      (∀ hs, g.heteronyms = some hs → ¬ w ∈ hs) → g.locale = some enUS →
      ¬ ([apos, 's'] <:+ w) → ¬ ([apos, 'S'] <:+ w) →
      w.length > 1 → (['s'] <:+ w ∨ ['S'] <:+ w) →
      g.findStem w 1 = some f → dictLookup g.phoneme_dict f = some ps →
      (g.ignore_ambiguous_words = false ∨ ps.length = 1) →
      ¬ (f.getLastD ' ' = 'T' ∨ f.getLastD ' ' = 't') →
      g.parse_one_word r w = (.plist (ps.headD [] ++ [['z']]), true)) := by
  refine ⟨?_, ?_, ?_, ?_, ?_, ?_⟩
  · intro g w n f
    unfold IPAG2P.findStem
    split_ifs with h1 h2 h3
    · simp only [Option.some.injEq]
      constructor
      · intro hf
        exact ⟨h1, Or.inl ⟨h2, hf.symm⟩⟩
      · rintro ⟨-, ⟨-, hf⟩ | ⟨hn, -, -⟩⟩
        · exact hf.symm
        · rw [hn] at h2
          simp at h2
    · simp only [Option.some.injEq]
      constructor
      · intro hf
        exact ⟨h1, Or.inr ⟨Option.not_isSome_iff_eq_none.mp h2, h3, hf.symm⟩⟩
      · rintro ⟨-, ⟨hsome, -⟩ | ⟨-, -, hf⟩⟩
        · exact absurd hsome h2
        · exact hf.symm
    · constructor
      · intro h
        exact h.elim
      · rintro ⟨-, ⟨hsome, -⟩ | ⟨-, hsome, -⟩⟩
        · exact absurd hsome h2
        · exact absurd hsome h3
    · constructor
      · intro h
        exact h.elim
      · rintro ⟨hc, -⟩
        exact absurd hc h1
  · intro g r w f ps hp hfix hhet hloc hlen hsuf hfs hfps hamb hT
    simp only [List.getLastD_eq_getLast?] at hT
    refine ipa_parse_enUsSuffix g r w _ hp hfix hhet
      (ipa_char_of_suffix (Or.inr (Or.inr hsuf))) hloc ?_
    simp [IPAG2P.enUsSuffix, hlen, hsuf, hfs, ipa_ambigOk_of g f ps hfps hamb,
      hT, firstPron, hfps]
  · intro g r w f ps hp hfix hhet hloc hlen hsuf hfs hfps hamb hnT hS
    simp only [List.getLastD_eq_getLast?] at hnT hS
    rw [not_or] at hnT
    refine ipa_parse_enUsSuffix g r w _ hp hfix hhet
      (ipa_char_of_suffix (Or.inr (Or.inr hsuf))) hloc ?_
    simp [IPAG2P.enUsSuffix, hlen, hsuf, hfs, ipa_ambigOk_of g f ps hfps hamb,
      hnT.1, hnT.2, hS, firstPron, hfps]
  · intro g r w f ps hp hfix hhet hloc hlen hsuf hfs hfps hamb hnT hnS
    simp only [List.getLastD_eq_getLast?] at hnT hnS
    rw [not_or] at hnT
    rw [not_or] at hnS
    refine ipa_parse_enUsSuffix g r w _ hp hfix hhet
      (ipa_char_of_suffix (Or.inr (Or.inr hsuf))) hloc ?_
    simp [IPAG2P.enUsSuffix, hlen, hsuf, hfs, ipa_ambigOk_of g f ps hfps hamb,
      hnT.1, hnT.2, hnS.1, hnS.2, firstPron, hfps]
  · intro g r w f ps hp hfix hhet hloc hna hnA hlen hsuf hfs hfps hamb hT
    simp only [List.getLastD_eq_getLast?] at hT
    refine ipa_parse_enUsSuffix g r w _ hp hfix hhet
      (ipa_char_of_suffix (by tauto)) hloc ?_
    simp [IPAG2P.enUsSuffix, hna, hnA, hlen, hsuf, hfs,
      ipa_ambigOk_of g f ps hfps hamb, hT, firstPron, hfps]
  · intro g r w f ps hp hfix hhet hloc hna hnA hlen hsuf hfs hfps hamb hnT
    simp only [List.getLastD_eq_getLast?] at hnT
    rw [not_or] at hnT
    refine ipa_parse_enUsSuffix g r w _ hp hfix hhet
      (ipa_char_of_suffix (by tauto)) hloc ?_
    simp [IPAG2P.enUsSuffix, hna, hnA, hlen, hsuf, hfs,
      ipa_ambigOk_of g f ps hfps hamb, hnT.1, hnT.2, firstPron, hfps]

/-- Witness for the amended C4: `"CAT'S"` gets `/s/` appended (stem ends in
`T`), `"JONES'S"` gets `/ɪz/` (stem ends in `S`), `"DOG'S"` gets `/z/`, and
for the bare rules `"CATS"` gets `/s/` and `"DOGS"` gets `/z/`. -/
theorem c4_ipa_suffix_amended_witness :
    (IPAG2P.parse_one_word
      { phoneme_dict := [(['C', 'A', 'T'], [[['k'], ['æ'], ['t']]])],
        symbols := [], apply_to_oov_word := none, ignore_ambiguous_words := true,
        heteronyms := none, phoneme_probability := none, locale := some enUS,
        use_chars := false, use_stresses := true,
        grapheme_case := GraphemeCase.upper, grapheme_pfx := [] }
      0 ['C', 'A', 'T', apos, 'S'] = (.plist [['k'], ['æ'], ['t'], ['s']], true)) ∧
    (IPAG2P.parse_one_word
      { phoneme_dict := [(['J', 'O', 'N', 'E', 'S'], [[['ʤ'], ['o'], ['z']]])],
        symbols := [], apply_to_oov_word := none, ignore_ambiguous_words := true,
        heteronyms := none, phoneme_probability := none, locale := some enUS,
        use_chars := false, use_stresses := true,
        grapheme_case := GraphemeCase.upper, grapheme_pfx := [] }
      0 ['J', 'O', 'N', 'E', 'S', apos, 'S'] =
      (.plist [['ʤ'], ['o'], ['z'], ['ɪ'], ['z']], true)) ∧
    (IPAG2P.parse_one_word
      { phoneme_dict := [(['D', 'O', 'G'], [[['d'], ['ɔ'], ['g']]])],
        symbols := [], apply_to_oov_word := none, ignore_ambiguous_words := true,
        heteronyms := none, phoneme_probability := none, locale := some enUS,
        use_chars := false, use_stresses := true,
        grapheme_case := GraphemeCase.upper, grapheme_pfx := [] }
      0 ['D', 'O', 'G', apos, 'S'] = (.plist [['d'], ['ɔ'], ['g'], ['z']], true)) ∧
    (IPAG2P.parse_one_word
      { phoneme_dict := [(['C', 'A', 'T'], [[['k'], ['æ'], ['t']]])],
        symbols := [], apply_to_oov_word := none, ignore_ambiguous_words := true,
        heteronyms := none, phoneme_probability := none, locale := some enUS,
        use_chars := false, use_stresses := true,
        grapheme_case := GraphemeCase.upper, grapheme_pfx := [] }
      0 ['C', 'A', 'T', 'S'] = (.plist [['k'], ['æ'], ['t'], ['s']], true)) ∧
    (IPAG2P.parse_one_word
      { phoneme_dict := [(['D', 'O', 'G'], [[['d'], ['ɔ'], ['g']]])],
        symbols := [], apply_to_oov_word := none, ignore_ambiguous_words := true,
        heteronyms := none, phoneme_probability := none, locale := some enUS,
        use_chars := false, use_stresses := true,
        grapheme_case := GraphemeCase.upper, grapheme_pfx := [] }
      0 ['D', 'O', 'G', 'S'] = (.plist [['d'], ['ɔ'], ['g'], ['z']], true)) := by
  refine ⟨?_, ?_, ?_, ?_, ?_⟩
  · have h := c4_ipa_suffix_amended.2.1
      { phoneme_dict := [(['C', 'A', 'T'], [[['k'], ['æ'], ['t']]])],
        symbols := [], apply_to_oov_word := none, ignore_ambiguous_words := true,
        heteronyms := none, phoneme_probability := none, locale := some enUS,
        use_chars := false, use_stresses := true,
        grapheme_case := GraphemeCase.upper, grapheme_pfx := [] }
      0 ['C', 'A', 'T', apos, 'S'] ['C', 'A', 'T'] [[['k'], ['æ'], ['t']]] rfl
      (by decide) (by intro hs h; cases h) rfl (by decide) (by decide) (by decide)
      (by decide) (Or.inr rfl) (by decide)
    simpa using h
  · have h := c4_ipa_suffix_amended.2.2.1
      { phoneme_dict := [(['J', 'O', 'N', 'E', 'S'], [[['ʤ'], ['o'], ['z']]])],
        symbols := [], apply_to_oov_word := none, ignore_ambiguous_words := true,
        heteronyms := none, phoneme_probability := none, locale := some enUS,
        use_chars := false, use_stresses := true,
        grapheme_case := GraphemeCase.upper, grapheme_pfx := [] }
      0 ['J', 'O', 'N', 'E', 'S', apos, 'S'] ['J', 'O', 'N', 'E', 'S']
      [[['ʤ'], ['o'], ['z']]] rfl (by decide) (by intro hs h; cases h) rfl
      (by decide) (by decide) (by decide) (by decide) (Or.inr rfl) (by decide)
      (by decide)
    simpa using h
  · have h := c4_ipa_suffix_amended.2.2.2.1
      { phoneme_dict := [(['D', 'O', 'G'], [[['d'], ['ɔ'], ['g']]])],
        symbols := [], apply_to_oov_word := none, ignore_ambiguous_words := true,
        heteronyms := none, phoneme_probability := none, locale := some enUS,
        use_chars := false, use_stresses := true,
        grapheme_case := GraphemeCase.upper, grapheme_pfx := [] }
      0 ['D', 'O', 'G', apos, 'S'] ['D', 'O', 'G'] [[['d'], ['ɔ'], ['g']]] rfl
      (by decide) (by intro hs h; cases h) rfl (by decide) (by decide) (by decide)
      (by decide) (Or.inr rfl) (by decide) (by decide)
    simpa using h
  · have h := c4_ipa_suffix_amended.2.2.2.2.1
      { phoneme_dict := [(['C', 'A', 'T'], [[['k'], ['æ'], ['t']]])],
        symbols := [], apply_to_oov_word := none, ignore_ambiguous_words := true,
        heteronyms := none, phoneme_probability := none, locale := some enUS,
        use_chars := false, use_stresses := true,
        grapheme_case := GraphemeCase.upper, grapheme_pfx := [] }
      0 ['C', 'A', 'T', 'S'] ['C', 'A', 'T'] [[['k'], ['æ'], ['t']]] rfl
      (by decide) (by intro hs h; cases h) rfl (by decide) (by decide) (by decide)
      (by decide) (by decide) (by decide) (Or.inr rfl) (by decide)
    simpa using h
  · have h := c4_ipa_suffix_amended.2.2.2.2.2
      { phoneme_dict := [(['D', 'O', 'G'], [[['d'], ['ɔ'], ['g']]])],
        symbols := [], apply_to_oov_word := none, ignore_ambiguous_words := true,
        heteronyms := none, phoneme_probability := none, locale := some enUS,
        use_chars := false, use_stresses := true,
        grapheme_case := GraphemeCase.upper, grapheme_pfx := [] }
      0 ['D', 'O', 'G', 'S'] ['D', 'O', 'G'] [[['d'], ['ɔ'], ['g']]] rfl
      (by decide) (by intro hs h; cases h) rfl (by decide) (by decide) (by decide)
      (by decide) (by decide) (by decide) (Or.inr rfl) (by decide)
    simpa using h

theorem pySplit_ne_nil (sep : Char) (w : W) : pySplit sep w ≠ [] := by
  induction w with
  | nil => simp [pySplit]
  | cons c rest ih =>
      unfold pySplit
      by_cases hc : c = sep
      · simp [hc]
      · simp only [if_neg hc]
        exact List.cons_ne_nil _ _

theorem length_pySplit_gt_one {sep : Char} {w : W} (h : sep ∈ w) :
    (pySplit sep w).length > 1 := by
  induction w with
  | nil => cases h
  | cons c rest ih =>
      unfold pySplit
      by_cases hc : c = sep
      · simp only [if_pos hc, List.length_cons]
        have := List.length_pos.mpr (pySplit_ne_nil sep rest)
        omega
      · simp only [if_neg hc, List.length_cons]
        have hmem : sep ∈ rest := by
          rcases List.mem_cons.mp h with heq | hm
          · exact absurd heq.symm hc
          · exact hm
        have hlen := ih hmem
        have hpos := List.length_pos.mpr (pySplit_ne_nil sep rest)
        simp only [List.length_tail]
        omega

theorem hyphenLoopE_eq (g : EnglishG2p) (rng : Nat → ℚ) (i : Nat)
    (hp : g.phoneme_probability = none) :
    ∀ parts : List W, parts ≠ [] →
      (g.hyphenLoop rng parts i).1 =
        (List.intersperse [hyphenSym]
          (parts.map (fun sub => (g.parse_one_word (rng i) sub).1.toSymbols))).flatten
          ++ [hyphenSym] := by
  have hd : g.draws = 0 := by simp [EnglishG2p.draws, hp]
  intro parts
  induction parts with
  | nil => intro h; exact absurd rfl h
  | cons x rest ih =>
      intro _
      cases rest with
      | nil => simp [EnglishG2p.hyphenLoop]
      | cons y t =>
          show ((g.parse_one_word (rng i) x).1.toSymbols ++ [hyphenSym]
            ++ (g.hyphenLoop rng (y :: t) (i + g.draws)).1, _).1 = _
          rw [hd, Nat.add_zero]
          rw [ih (List.cons_ne_nil y t)]
          simp [List.intersperse_cons_cons, List.append_assoc]

theorem hyphenLoopI_eq (g : IPAG2P) (rng : Nat → ℚ) (i : Nat)
    (hp : g.phoneme_probability = none) :
    ∀ parts : List W, parts ≠ [] →
      (g.hyphenLoop rng parts i).1 =
        (List.intersperse [hyphenSym]
          (parts.map (fun sub => (g.parse_one_word (rng i) sub).1.toSymbols))).flatten
          ++ [hyphenSym] := by
  have hd : ∀ sub, g.draws sub = 0 := by
    intro sub
    simp [IPAG2P.draws, hp]
  intro parts
  induction parts with
  | nil => intro h; exact absurd rfl h
  | cons x rest ih =>
      intro _
      cases rest with
      | nil => simp [IPAG2P.hyphenLoop]
      | cons y t =>
          show ((g.parse_one_word (rng i) x).1.toSymbols ++ [hyphenSym]
            ++ (g.hyphenLoop rng (y :: t) (i + g.draws x)).1, _).1 = _
          rw [hd, Nat.add_zero]
          rw [ih (List.cons_ne_nil y t)]
          simp [List.intersperse_cons_cons, List.append_assoc]

/-! ### C10 -/

/-- C10: when `parse_one_word` reports a word as not handled and the word
contains a hyphen, `__call__` (both classes) discards the whole-word result,
parses each hyphen-separated sub-word independently, and emits the sub-word
results separated by single `"-"` tokens with no trailing `"-"` -- stated for
a token at any position of the text (`processToken` is the loop body of
`__call__`) and for a single-token text, with no phoneme probability set (so
the parses take no random draws). -/
theorem c10_hyphen_fallback :
    (∀ (g : EnglishG2p) (rng : Nat → ℚ) (i : Nat) (w : W),
      g.phoneme_probability = none →
      (g.parse_one_word (rng i) w).2 = false → '-' ∈ w →
      (g.processToken rng i ([w], false)).1 =
        (List.intersperse [hyphenSym]
          ((pySplit '-' w).map
            (fun sub => (g.parse_one_word (rng i) sub).1.toSymbols))).flatten) ∧
    (∀ (g : IPAG2P) (rng : Nat → ℚ) (i : Nat) (w : W),
      g.phoneme_probability = none →
      (g.parse_one_word (rng i) w).2 = false → '-' ∈ w →
      (g.processToken rng i ([w], false)).1 =
        (List.intersperse [hyphenSym]
          ((pySplit '-' w).map
            (fun sub => (g.parse_one_word (rng i) sub).1.toSymbols))).flatten) ∧
    (∀ (g : EnglishG2p) (rng : Nat → ℚ) (w : W),
      g.phoneme_probability = none →
      (g.parse_one_word (rng 0) w).2 = false → '-' ∈ w →
      g.call rng [([w], false)] =
        (List.intersperse [hyphenSym]
          ((pySplit '-' w).map
            (fun sub => (g.parse_one_word (rng 0) sub).1.toSymbols))).flatten) ∧
    (∀ (g : IPAG2P) (rng : Nat → ℚ) (w : W),
      g.phoneme_probability = none →
      (g.parse_one_word (rng 0) w).2 = false → '-' ∈ w →
      g.call rng [([w], false)] =
        (List.intersperse [hyphenSym]
          ((pySplit '-' w).map
            (fun sub => (g.parse_one_word (rng 0) sub).1.toSymbols))).flatten) := by
  have en : ∀ (g : EnglishG2p) (rng : Nat → ℚ) (i : Nat) (w : W),
      g.phoneme_probability = none →
      (g.parse_one_word (rng i) w).2 = false → '-' ∈ w →
      (g.processToken rng i ([w], false)).1 =
        (List.intersperse [hyphenSym]
          ((pySplit '-' w).map
            (fun sub => (g.parse_one_word (rng i) sub).1.toSymbols))).flatten := by
    intro g rng i w hp hst hmem
    have hd : g.draws = 0 := by simp [EnglishG2p.draws, hp]
    have hlen := length_pySplit_gt_one hmem
    unfold EnglishG2p.processToken
    simp only [Bool.false_eq_true, if_false, List.headD_cons]
    rw [if_pos ⟨hst, hlen⟩]
    simp only [hd, Nat.add_zero]
    rw [hyphenLoopE_eq g rng i hp (pySplit '-' w) (pySplit_ne_nil '-' w)]
    rw [List.dropLast_concat]
  have ipa : ∀ (g : IPAG2P) (rng : Nat → ℚ) (i : Nat) (w : W),
      g.phoneme_probability = none →
      (g.parse_one_word (rng i) w).2 = false → '-' ∈ w →
      (g.processToken rng i ([w], false)).1 =
        (List.intersperse [hyphenSym]
          ((pySplit '-' w).map
            (fun sub => (g.parse_one_word (rng i) sub).1.toSymbols))).flatten := by
    intro g rng i w hp hst hmem
    have hd : ∀ sub, g.draws sub = 0 := by
      intro sub
      simp [IPAG2P.draws, hp]
    have hlen := length_pySplit_gt_one hmem
    unfold IPAG2P.processToken
    simp only [Bool.false_eq_true, if_false, List.headD_cons]
    rw [if_pos ⟨hst, hlen⟩]
    simp only [hd, Nat.add_zero]
    rw [hyphenLoopI_eq g rng i hp (pySplit '-' w) (pySplit_ne_nil '-' w)]
    rw [List.dropLast_concat]
  refine ⟨en, ipa, ?_, ?_⟩
  · intro g rng w hp hst hmem
    show (g.processToken rng 0 ([w], false)).1
      ++ g.callFrom rng [] (g.processToken rng 0 ([w], false)).2 = _
    rw [en g rng 0 w hp hst hmem]
    simp [EnglishG2p.callFrom]
  · intro g rng w hp hst hmem
    show (g.processToken rng 0 ([w], false)).1
      ++ g.callFrom rng [] (g.processToken rng 0 ([w], false)).2 = _
    rw [ipa g rng 0 w hp hst hmem]
    simp [IPAG2P.callFrom]

/-- Witness for C10: the out-of-vocabulary hyphenated word `"cat-dog"` is
split and each part is parsed on its own, with a single separating `"-"`. -/
theorem c10_hyphen_fallback_witness :
    EnglishG2p.call
      { phoneme_dict := [(['c', 'a', 't'], [[['K'], ['A', 'E'], ['T']]]),
          (['d', 'o', 'g'], [[['D'], ['A', 'O'], ['G']]])],
        apply_to_oov_word := none, ignore_ambiguous_words := true,
        heteronyms := none, phoneme_probability := none } (fun _ => 0)
      [([['c', 'a', 't', '-', 'd', 'o', 'g']], false)] =
      [['K'], ['A', 'E'], ['T'], ['-'], ['D'], ['A', 'O'], ['G']] := by
  have h := c10_hyphen_fallback.2.2.1
    { phoneme_dict := [(['c', 'a', 't'], [[['K'], ['A', 'E'], ['T']]]),
        (['d', 'o', 'g'], [[['D'], ['A', 'O'], ['G']]])],
      apply_to_oov_word := none, ignore_ambiguous_words := true,
      heteronyms := none, phoneme_probability := none } (fun _ => 0)
    ['c', 'a', 't', '-', 'd', 'o', 'g'] rfl (by decide) (by decide)
  simpa using h

theorem parseE_rand_irrel (g : EnglishG2p) (hp : g.phoneme_probability = none)
    (r1 r2 : ℚ) (w : W) : g.parse_one_word r1 w = g.parse_one_word r2 w := by
  unfold EnglishG2p.parse_one_word
  rw [hp]
  simp only [probSkip]

theorem parseI_rand_irrel (g : IPAG2P) (hp : g.phoneme_probability = none)
    (r1 r2 : ℚ) (w : W) : g.parse_one_word r1 w = g.parse_one_word r2 w := by
  unfold IPAG2P.parse_one_word
  rw [hp]
  simp only [probSkip]

theorem hyphenLoopE_rand_irrel (g : EnglishG2p) (hp : g.phoneme_probability = none)
    (rng1 rng2 : Nat → ℚ) : ∀ (parts : List W) (i : Nat),
    g.hyphenLoop rng1 parts i = g.hyphenLoop rng2 parts i := by
  intro parts
  induction parts with
  | nil => intro i; rfl
  | cons sub rest ih =>
      intro i
      show ((g.parse_one_word (rng1 i) sub).1.toSymbols ++ [hyphenSym]
          ++ (g.hyphenLoop rng1 rest (i + g.draws)).1,
        (g.hyphenLoop rng1 rest (i + g.draws)).2) = _
      rw [parseE_rand_irrel g hp (rng1 i) (rng2 i) sub, ih]
      rfl

theorem hyphenLoopI_rand_irrel (g : IPAG2P) (hp : g.phoneme_probability = none)
    (rng1 rng2 : Nat → ℚ) : ∀ (parts : List W) (i : Nat),
    g.hyphenLoop rng1 parts i = g.hyphenLoop rng2 parts i := by
  intro parts
  induction parts with
  | nil => intro i; rfl
  | cons sub rest ih =>
      intro i
      show ((g.parse_one_word (rng1 i) sub).1.toSymbols ++ [hyphenSym]
          ++ (g.hyphenLoop rng1 rest (i + g.draws sub)).1,
        (g.hyphenLoop rng1 rest (i + g.draws sub)).2) = _
      rw [parseI_rand_irrel g hp (rng1 i) (rng2 i) sub, ih]
      rfl

theorem processTokenE_rand_irrel (g : EnglishG2p) (hp : g.phoneme_probability = none)
    (rng1 rng2 : Nat → ℚ) (i : Nat) (tok : List W × Bool) :
    g.processToken rng1 i tok = g.processToken rng2 i tok := by
  unfold EnglishG2p.processToken
  simp only [parseE_rand_irrel g hp (rng1 i) (rng2 i),
    hyphenLoopE_rand_irrel g hp rng1 rng2]

theorem processTokenI_rand_irrel (g : IPAG2P) (hp : g.phoneme_probability = none)
    (rng1 rng2 : Nat → ℚ) (i : Nat) (tok : List W × Bool) :
    g.processToken rng1 i tok = g.processToken rng2 i tok := by
  unfold IPAG2P.processToken
  simp only [parseI_rand_irrel g hp (rng1 i) (rng2 i),
    hyphenLoopI_rand_irrel g hp rng1 rng2]

theorem callFromE_rand_irrel (g : EnglishG2p) (hp : g.phoneme_probability = none)
    (rng1 rng2 : Nat → ℚ) : ∀ (tokens : List (List W × Bool)) (i : Nat),
    g.callFrom rng1 tokens i = g.callFrom rng2 tokens i := by
  intro tokens
  induction tokens with
  | nil => intro i; rfl
  | cons tok rest ih =>
      intro i
      show (g.processToken rng1 i tok).1
          ++ g.callFrom rng1 rest (g.processToken rng1 i tok).2 = _
      rw [processTokenE_rand_irrel g hp rng1 rng2 i tok, ih]
      rfl

theorem callFromI_rand_irrel (g : IPAG2P) (hp : g.phoneme_probability = none)
    (rng1 rng2 : Nat → ℚ) : ∀ (tokens : List (List W × Bool)) (i : Nat),
    g.callFrom rng1 tokens i = g.callFrom rng2 tokens i := by
  intro tokens
  induction tokens with
  | nil => intro i; rfl
  | cons tok rest ih =>
      intro i
      show (g.processToken rng1 i tok).1
          ++ g.callFrom rng1 rest (g.processToken rng1 i tok).2 = _
      rw [processTokenI_rand_irrel g hp rng1 rng2 i tok, ih]
      rfl

/-! ### C2 -/

/-- Counterexample to C2 as stated: with `phoneme_probability = 1/2`, two
calls of `EnglishG2p.__call__` on the same tokenized text `"hello"` -- whose
random draws happen to be `1/10` in the first call and `9/10` in the second --
return different symbol lists (the dictionary pronunciation versus the raw
characters), so the transformation is not deterministic for every
configuration. -/
theorem c2_determinism_counterexample :
    EnglishG2p.call
      { phoneme_dict := [(['h', 'e', 'l', 'l', 'o'],
          [[['H', 'H'], ['A', 'H'], ['L'], ['O', 'W']]])],
        apply_to_oov_word := none, ignore_ambiguous_words := true,
        heteronyms := none, phoneme_probability := some (mkRat 1 2) }
      (fun _ => mkRat 1 10) [([['h', 'e', 'l', 'l', 'o']], false)] ≠
    EnglishG2p.call
      { phoneme_dict := [(['h', 'e', 'l', 'l', 'o'],
          [[['H', 'H'], ['A', 'H'], ['L'], ['O', 'W']]])],
        apply_to_oov_word := none, ignore_ambiguous_words := true,
        heteronyms := none, phoneme_probability := some (mkRat 1 2) }
      (fun _ => mkRat 9 10) [([['h', 'e', 'l', 'l', 'o']], false)] := by decide

/-- C2 amended: with `phoneme_probability = None` (the only source of
randomness disabled), `__call__` of both `EnglishG2p` and `IPAG2P` is
deterministic -- its output on a tokenized text does not depend on the state
of the random generator. -/
theorem c2_determinism_amended :
    (∀ (g : EnglishG2p) (rng1 rng2 : Nat → ℚ) (tokens : List (List W × Bool)),
      g.phoneme_probability = none →
      g.call rng1 tokens = g.call rng2 tokens) ∧
    (∀ (g : IPAG2P) (rng1 rng2 : Nat → ℚ) (tokens : List (List W × Bool)),
      g.phoneme_probability = none →
      g.call rng1 tokens = g.call rng2 tokens) := by
  constructor
  · intro g rng1 rng2 tokens hp
    exact callFromE_rand_irrel g hp rng1 rng2 tokens 0
  · intro g rng1 rng2 tokens hp
    exact callFromI_rand_irrel g hp rng1 rng2 tokens 0

/-- Witness for the amended C2: two runs of a concrete `EnglishG2p` and
`IPAG2P` with different generator streams agree on a concrete text. -/
theorem c2_determinism_amended_witness :
    (EnglishG2p.call
      { phoneme_dict := [(['c', 'a', 't'], [[['K'], ['A', 'E'], ['T']]])],
        apply_to_oov_word := none, ignore_ambiguous_words := true,
        heteronyms := none, phoneme_probability := none }
      (fun _ => mkRat 1 10) [([['c', 'a', 't']], false)] =
    EnglishG2p.call
      { phoneme_dict := [(['c', 'a', 't'], [[['K'], ['A', 'E'], ['T']]])],
        apply_to_oov_word := none, ignore_ambiguous_words := true,
        heteronyms := none, phoneme_probability := none }
      (fun _ => mkRat 9 10) [([['c', 'a', 't']], false)]) ∧
    (IPAG2P.call
      { phoneme_dict := [(['C', 'A', 'T'], [[['k'], ['æ'], ['t']]])],
        symbols := [], apply_to_oov_word := none, ignore_ambiguous_words := true,
        heteronyms := none, phoneme_probability := none, locale := some enUS,
        use_chars := false, use_stresses := true,
        grapheme_case := GraphemeCase.upper, grapheme_pfx := [] }
      (fun _ => mkRat 1 10) [([['c', 'a', 't']], false)] =
    IPAG2P.call
      { phoneme_dict := [(['C', 'A', 'T'], [[['k'], ['æ'], ['t']]])],
        symbols := [], apply_to_oov_word := none, ignore_ambiguous_words := true,
        heteronyms := none, phoneme_probability := none, locale := some enUS,
        use_chars := false, use_stresses := true,
        grapheme_case := GraphemeCase.upper, grapheme_pfx := [] }
      (fun _ => mkRat 9 10) [([['c', 'a', 't']], false)]) :=
  ⟨c2_determinism_amended.1 _ _ _ _ rfl, c2_determinism_amended.2 _ _ _ _ rfl⟩
